import Mathlib

set_option maxHeartbeats 1000000

namespace Eos

/-! Shallow embedding of the affection register of the Eos attribute
calculation core (`src/eos/fit/calculator/register.py`), together with a
spec-modelled effect builder and reactive-armor-hardener simulator for the
parts of the repository whose code is not available.

Items are identified by natural numbers (Python object identity); the static
data attached to an item (`_type_id`, `_type.group_id`,
`_type.required_skills`, `_modifier_domain`, `_owner_modifiable`, `_others`)
is provided by an environment `Ctx`.  Python dictionaries mapping keys to
sets (`KeyedStorage`) are embedded as finite sets of key/value pairs; since
`KeyedStorage.rm_data_entry` deletes a key as soon as its set becomes empty,
an absent key and a key holding the empty set are indistinguishable in the
source, which the pair-set representation reflects. -/

/-- Modifier target domain (`ModDomain`).  `invalid code` stands for any raw
value outside the four known enum members (the tests use `1972`). -/
inductive Dom where
  | self
  | character
  | ship
  | other
  | invalid (code : Nat)
deriving DecidableEq

/-- Modifier target filter (`ModTgtFilter`); `invalid code` is any unknown
raw value. -/
inductive TgtFilter where
  | item
  | domain
  | domainGroup
  | domainSkillrq
  | ownerSkillrq
  | invalid (code : Nat)
deriving DecidableEq

/-- The `tgt_filter_extra_arg` of a modifier: absent (`None`), the
`EosTypeId.current_self` sentinel, or a concrete group/skill type id. -/
inductive ExtraArg where
  | noArg
  | currentSelf
  | value (n : Nat)
deriving DecidableEq

/-- The part of a dogma modifier the affection register inspects. -/
structure Modifier where
  tgtFilter : TgtFilter
  tgtDomain : Dom
  tgtFilterExtraArg : ExtraArg
deriving DecidableEq

/-- An affector: a carrier item together with one of its modifiers. -/
structure Affector where
  carrierItem : Nat
  modifier : Modifier
deriving DecidableEq

/-- Static data of an item, as read by the register. -/
structure ItemData where
  typeId : Nat
  groupId : Option Nat
  requiredSkills : List Nat
  modifierDomain : Option Dom
  ownerModifiable : Bool
  others : List Nat
deriving DecidableEq

/-- The register's environment: the item database and the calculator
service's current ship and character (`_current_ship`, `_current_char`). -/
structure Ctx where
  itemData : Nat → ItemData
  currentShip : Option Nat
  currentChar : Option Nat

/-- The two exception types raised by the register
(`UnexpectedDomainError`, `UnknownTgtFilterError`). -/
inductive RegError where
  | unexpectedDomain (d : Dom)
  | unknownTgtFilter (f : TgtFilter)
deriving DecidableEq

/-- A logged warning; `__handle_affector_errors` formats the message
from the carrier item's type id and the offending domain or filter. -/
structure LogMsg where
  typeId : Nat
  error : RegError
deriving DecidableEq

/-- The warning produced by `__handle_affector_errors` for an affector. -/
def mkLog (ctx : Ctx) (a : Affector) (e : RegError) : LogMsg :=
  ⟨(ctx.itemData a.carrierItem).typeId, e⟩

/-- Lookup in a keyed storage: all values stored under a key. -/
def kget {κ α : Type} [DecidableEq κ] [DecidableEq α]
    (m : Finset (κ × α)) (k : κ) : Finset α :=
  (m.filter (fun p => p.1 = k)).image Prod.snd

/-- Iterated `add_data_entry`: insert `v` under each key of `ks`. -/
def addKeyed {κ α : Type} [DecidableEq κ] [DecidableEq α]
    (m : Finset (κ × α)) (ks : List κ) (v : α) : Finset (κ × α) :=
  ks.foldl (fun acc k => insert (k, v) acc) m

/-- Iterated `rm_data_entry`: remove `v` from under each key of `ks`. -/
def rmKeyed {κ α : Type} [DecidableEq κ] [DecidableEq α]
    (m : Finset (κ × α)) (ks : List κ) (v : α) : Finset (κ × α) :=
  ks.foldl (fun acc k => acc.erase (k, v)) m

/-- The full state of `AffectionRegister`: the affectee membership set, the
four affectee lookup maps, and the seven affector maps. -/
structure RegState where
  affectee : Finset Nat
  affecteeDomain : Finset (Dom × Nat)
  affecteeDomainGroup : Finset ((Dom × ExtraArg) × Nat)
  affecteeDomainSkillrq : Finset ((Dom × ExtraArg) × Nat)
  affecteeOwnerSkillrq : Finset (ExtraArg × Nat)
  affectorItemOther : Finset (Nat × Affector)
  affectorItemAwaitable : Finset (Nat × Affector)
  affectorItemActive : Finset (Nat × Affector)
  affectorDomain : Finset (Dom × Affector)
  affectorDomainGroup : Finset ((Dom × ExtraArg) × Affector)
  affectorDomainSkillrq : Finset ((Dom × ExtraArg) × Affector)
  affectorOwnerSkillrq : Finset (ExtraArg × Affector)
deriving DecidableEq

/-- The register as constructed by `__init__`: all indices empty. -/
def emptyState : RegState :=
  ⟨∅, ∅, ∅, ∅, ∅, ∅, ∅, ∅, ∅, ∅, ∅, ∅⟩

/-- The `EosTypeId.current_self` substitution performed for skill-requirement
filters: the sentinel is replaced by the carrier item's type id. -/
def resolveExtra (carrierTypeId : Nat) : ExtraArg → ExtraArg
  | .currentSelf => .value carrierTypeId
  | a => a

/-- Injection of an optional group id into the key type, matching the
`(domain, affectee_item._type.group_id)` lookup key. -/
def extraOfOpt : Option Nat → ExtraArg
  | some n => .value n
  | none => .noArg

/-- `__contextize_tgt_filter_domain`: convert a relative domain into an
absolute one for en-masse modifications.  `self` maps to `ship` when the
carrier is the current ship, to `character` when it is the current
character, and raises `UnexpectedDomainError` otherwise; `character` and
`ship` pass through; everything else raises. -/
def contextizeTgtFilterDomain (ctx : Ctx) (a : Affector) : Except RegError Dom :=
  match a.modifier.tgtDomain with
  | .self =>
    if ctx.currentShip = some a.carrierItem then .ok .ship
    else if ctx.currentChar = some a.carrierItem then .ok .character
    else .error (.unexpectedDomain .self)
  | .character => .ok .character
  | .ship => .ok .ship
  | .other => .error (.unexpectedDomain .other)
  | .invalid c => .error (.unexpectedDomain (.invalid c))

/-- `__get_registered_affectees`: intersection of the affectee set with a
collection of items. -/
def getRegisteredAffectees (s : RegState) (items : List Nat) : Finset Nat :=
  s.affectee.filter (fun x => x ∈ items)

/-- The body of `get_affectees` before error handling: dispatch over the
modifier's target filter (and, for the `item` filter, its target domain)
to the matching affectee lookup.  Unknown filters and unexpected domains
surface as errors, exactly where the source raises. -/
def getAffecteesRaw (ctx : Ctx) (s : RegState) (a : Affector) :
    Except RegError (Finset Nat) :=
  match a.modifier.tgtFilter with
  | .item =>
    match a.modifier.tgtDomain with
    | .self => .ok (getRegisteredAffectees s [a.carrierItem])
    | .character =>
      match ctx.currentChar with
      | some c => .ok (getRegisteredAffectees s [c])
      | none => .ok ∅
    | .ship =>
      match ctx.currentShip with
      | some sh => .ok (getRegisteredAffectees s [sh])
      | none => .ok ∅
    | .other => .ok (getRegisteredAffectees s (ctx.itemData a.carrierItem).others)
    | .invalid c => .error (.unexpectedDomain (.invalid c))
  | .domain =>
    (contextizeTgtFilterDomain ctx a).map (fun d => kget s.affecteeDomain d)
  | .domainGroup =>
    (contextizeTgtFilterDomain ctx a).map
      (fun d => kget s.affecteeDomainGroup (d, a.modifier.tgtFilterExtraArg))
  | .domainSkillrq =>
    (contextizeTgtFilterDomain ctx a).map
      (fun d => kget s.affecteeDomainSkillrq
        (d, resolveExtra (ctx.itemData a.carrierItem).typeId
          a.modifier.tgtFilterExtraArg))
  | .ownerSkillrq =>
    .ok (kget s.affecteeOwnerSkillrq
      (resolveExtra (ctx.itemData a.carrierItem).typeId
        a.modifier.tgtFilterExtraArg))
  | .invalid c => .error (.unknownTgtFilter (.invalid c))

/-- `get_affectees`: on an error the warning is logged via
`__handle_affector_errors` and the empty iterable is returned. -/
def get_affectees (ctx : Ctx) (s : RegState) (a : Affector) :
    Finset Nat × List LogMsg :=
  match getAffecteesRaw ctx s a with
  | .ok r => (r, [])
  | .error e => (∅, [mkLog ctx a e])

/-- `get_affectors`: union of the direct active affectors for the item with
the broadcast indices selected by the item's modifier domain, group and
skill requirements, and the owner-skill requirement indices when the item
is owner-modifiable.  An item outside the affectee set gets the empty
set. -/
def get_affectors (ctx : Ctx) (s : RegState) (x : Nat) : Finset Affector :=
  if x ∈ s.affectee then
    let it := ctx.itemData x
    let direct := kget s.affectorItemActive x
    let domPart :=
      match it.modifierDomain with
      | some d =>
        kget s.affectorDomain d ∪
        kget s.affectorDomainGroup (d, extraOfOpt it.groupId) ∪
        it.requiredSkills.foldl
          (fun acc sk => acc ∪ kget s.affectorDomainSkillrq (d, .value sk)) ∅
      | none => ∅
    let ownerPart :=
      if it.ownerModifiable then
        it.requiredSkills.foldl
          (fun acc sk => acc ∪ kget s.affectorOwnerSkillrq (.value sk)) ∅
      else ∅
    direct ∪ domPart ∪ ownerPart
  else ∅

/-- Keys of `__affectee_domain` for an item (`__get_affectee_storages`). -/
def affecteeDomainKeys (it : ItemData) : List Dom :=
  match it.modifierDomain with
  | some d => [d]
  | none => []

/-- Keys of `__affectee_domain_group` for an item. -/
def affecteeDomainGroupKeys (it : ItemData) : List (Dom × ExtraArg) :=
  match it.modifierDomain, it.groupId with
  | some d, some g => [(d, .value g)]
  | _, _ => []

/-- Keys of `__affectee_domain_skillrq` for an item. -/
def affecteeDomainSkillrqKeys (it : ItemData) : List (Dom × ExtraArg) :=
  match it.modifierDomain with
  | some d => it.requiredSkills.map (fun sk => (d, ExtraArg.value sk))
  | none => []

/-- Keys of `__affectee_owner_skillrq` for an item. -/
def affecteeOwnerSkillrqKeys (it : ItemData) : List ExtraArg :=
  if it.ownerModifiable then it.requiredSkills.map ExtraArg.value else []

/-- The selection made by `__activate_direct_affectors` while scanning
`__affector_item_awaitable`: a stored pair (key `p.1`, affector `p.2`) is
picked for the freshly registered item `x` when the modifier targets the
current ship and `x` is it, targets the current character and `x` is it, or
targets `self` and `x` is the dictionary key the affector is stored
under. -/
def awaitableSelectedBy (ctx : Ctx) (x : Nat) (p : Nat × Affector) : Prop :=
  (p.2.modifier.tgtDomain = .ship ∧ ctx.currentShip = some x) ∨
  (p.2.modifier.tgtDomain = .character ∧ ctx.currentChar = some x) ∨
  (p.2.modifier.tgtDomain = .self ∧ p.1 = x)

instance (ctx : Ctx) (x : Nat) (p : Nat × Affector) :
    Decidable (awaitableSelectedBy ctx x p) := by
  unfold awaitableSelectedBy
  infer_instance

/-- The set of awaitable affectors `__activate_direct_affectors` selects for
a freshly registered item `x`. -/
def selAwaitable (ctx : Ctx) (s : RegState) (x : Nat) : Finset Affector :=
  (s.affectorItemAwaitable.filter (awaitableSelectedBy ctx x)).image Prod.snd

/-- The set of `other`-domain affectors `__activate_direct_affectors`
replicates for a freshly registered item `x`: those whose carrier (their
storage key) lists `x` among its `_others`. -/
def selOthers (ctx : Ctx) (s : RegState) (x : Nat) : Finset Affector :=
  (s.affectorItemOther.filter
    (fun p => x ∈ (ctx.itemData p.1).others)).image Prod.snd

/-- `__activate_direct_affectors`: move the selected awaitable affectors
(removed under their carrier key, which coincides with filtering out the
pairs whose key is the carrier) into the active storage keyed by `x`, and
replicate into it every `other`-domain affector whose carrier lists `x`
among its `_others`. -/
def activateDirectAffectors (ctx : Ctx) (s : RegState) (x : Nat) : RegState :=
  { s with
    affectorItemAwaitable :=
      s.affectorItemAwaitable.filter
        (fun p => ¬(p.2 ∈ selAwaitable ctx s x ∧ p.1 = p.2.carrierItem)),
    affectorItemActive :=
      (s.affectorItemActive ∪ (selAwaitable ctx s x).image (fun a => (x, a))) ∪
        (selOthers ctx s x).image (fun a => (x, a)) }

/-- The affectors `__deactivate_direct_affectors` demotes back to the
awaitable storage: the active affectors keyed on `x` whose domain is ship,
character or self. -/
def demotedAffectors (s : RegState) (x : Nat) : Finset Affector :=
  (kget s.affectorItemActive x).filter
    (fun a => a.modifier.tgtDomain = .ship ∨
      a.modifier.tgtDomain = .character ∨ a.modifier.tgtDomain = .self)

/-- `__deactivate_direct_affectors`: if the item keys any active affectors,
delete that key and demote the ship/character/self ones back into the
awaitable storage under their carrier. -/
def deactivateDirectAffectors (s : RegState) (x : Nat) : RegState :=
  if kget s.affectorItemActive x = ∅ then s
  else
    { s with
      affectorItemActive := s.affectorItemActive.filter (fun p => p.1 ≠ x),
      affectorItemAwaitable :=
        s.affectorItemAwaitable ∪
          (demotedAffectors s x).image (fun a => (a.carrierItem, a)) }

/-- `register_affectee`: add the item to the affectee set and to every
applicable affectee map, then activate direct affectors waiting for it. -/
def register_affectee (ctx : Ctx) (s : RegState) (x : Nat) : RegState :=
  activateDirectAffectors ctx
    { s with
      affectee := insert x s.affectee,
      affecteeDomain :=
        addKeyed s.affecteeDomain (affecteeDomainKeys (ctx.itemData x)) x,
      affecteeDomainGroup :=
        addKeyed s.affecteeDomainGroup
          (affecteeDomainGroupKeys (ctx.itemData x)) x,
      affecteeDomainSkillrq :=
        addKeyed s.affecteeDomainSkillrq
          (affecteeDomainSkillrqKeys (ctx.itemData x)) x,
      affecteeOwnerSkillrq :=
        addKeyed s.affecteeOwnerSkillrq
          (affecteeOwnerSkillrqKeys (ctx.itemData x)) x } x

/-- `unregister_affectee`: remove the item from the affectee set and maps,
then deactivate the direct affectors applied to it. -/
def unregister_affectee (ctx : Ctx) (s : RegState) (x : Nat) : RegState :=
  deactivateDirectAffectors
    { s with
      affectee := s.affectee.erase x,
      affecteeDomain :=
        rmKeyed s.affecteeDomain (affecteeDomainKeys (ctx.itemData x)) x,
      affecteeDomainGroup :=
        rmKeyed s.affecteeDomainGroup
          (affecteeDomainGroupKeys (ctx.itemData x)) x,
      affecteeDomainSkillrq :=
        rmKeyed s.affecteeDomainSkillrq
          (affecteeDomainSkillrqKeys (ctx.itemData x)) x,
      affecteeOwnerSkillrq :=
        rmKeyed s.affecteeOwnerSkillrq
          (affecteeOwnerSkillrqKeys (ctx.itemData x)) x } x

/-- A reference to one slot of one affector map, the `(key, affector map)`
pairs produced by `__get_affector_storages`. -/
inductive StorageRef where
  | itemOther (c : Nat)
  | itemAwaitable (c : Nat)
  | itemActive (x : Nat)
  | domain (d : Dom)
  | domainGroup (k : Dom × ExtraArg)
  | domainSkillrq (k : Dom × ExtraArg)
  | ownerSkillrq (k : ExtraArg)
deriving DecidableEq

/-- `__get_affector_storages`: where an affector is to be stored, or the
error the lookup raises. -/
def getAffectorStorages (ctx : Ctx) (s : RegState) (a : Affector) :
    Except RegError (List StorageRef) :=
  match a.modifier.tgtFilter with
  | .item =>
    match a.modifier.tgtDomain with
    | .self =>
      if a.carrierItem ∈ s.affectee then .ok [.itemActive a.carrierItem]
      else .ok [.itemAwaitable a.carrierItem]
    | .character =>
      match ctx.currentChar with
      | some c =>
        if c ∈ s.affectee then .ok [.itemActive c]
        else .ok [.itemAwaitable a.carrierItem]
      | none => .ok [.itemAwaitable a.carrierItem]
    | .ship =>
      match ctx.currentShip with
      | some sh =>
        if sh ∈ s.affectee then .ok [.itemActive sh]
        else .ok [.itemAwaitable a.carrierItem]
      | none => .ok [.itemAwaitable a.carrierItem]
    | .other =>
      .ok (.itemOther a.carrierItem ::
        ((ctx.itemData a.carrierItem).others.filter
          (fun y => y ∈ s.affectee)).map .itemActive)
    | .invalid c => .error (.unexpectedDomain (.invalid c))
  | .domain =>
    (contextizeTgtFilterDomain ctx a).map (fun d => [.domain d])
  | .domainGroup =>
    (contextizeTgtFilterDomain ctx a).map
      (fun d => [.domainGroup (d, a.modifier.tgtFilterExtraArg)])
  | .domainSkillrq =>
    (contextizeTgtFilterDomain ctx a).map
      (fun d => [.domainSkillrq
        (d, resolveExtra (ctx.itemData a.carrierItem).typeId
          a.modifier.tgtFilterExtraArg)])
  | .ownerSkillrq =>
    .ok [.ownerSkillrq
      (resolveExtra (ctx.itemData a.carrierItem).typeId
        a.modifier.tgtFilterExtraArg)]
  | .invalid c => .error (.unknownTgtFilter (.invalid c))

/-- `add_data_entry` on the map a storage reference points to. -/
def addStorage (s : RegState) (r : StorageRef) (a : Affector) : RegState :=
  match r with
  | .itemOther c =>
    { s with affectorItemOther := insert (c, a) s.affectorItemOther }
  | .itemAwaitable c =>
    { s with affectorItemAwaitable := insert (c, a) s.affectorItemAwaitable }
  | .itemActive x =>
    { s with affectorItemActive := insert (x, a) s.affectorItemActive }
  | .domain d =>
    { s with affectorDomain := insert (d, a) s.affectorDomain }
  | .domainGroup k =>
    { s with affectorDomainGroup := insert (k, a) s.affectorDomainGroup }
  | .domainSkillrq k =>
    { s with affectorDomainSkillrq := insert (k, a) s.affectorDomainSkillrq }
  | .ownerSkillrq k =>
    { s with affectorOwnerSkillrq := insert (k, a) s.affectorOwnerSkillrq }

/-- `rm_data_entry` on the map a storage reference points to. -/
def rmStorage (s : RegState) (r : StorageRef) (a : Affector) : RegState :=
  match r with
  | .itemOther c =>
    { s with affectorItemOther := s.affectorItemOther.erase (c, a) }
  | .itemAwaitable c =>
    { s with affectorItemAwaitable := s.affectorItemAwaitable.erase (c, a) }
  | .itemActive x =>
    { s with affectorItemActive := s.affectorItemActive.erase (x, a) }
  | .domain d =>
    { s with affectorDomain := s.affectorDomain.erase (d, a) }
  | .domainGroup k =>
    { s with affectorDomainGroup := s.affectorDomainGroup.erase (k, a) }
  | .domainSkillrq k =>
    { s with affectorDomainSkillrq := s.affectorDomainSkillrq.erase (k, a) }
  | .ownerSkillrq k =>
    { s with affectorOwnerSkillrq := s.affectorOwnerSkillrq.erase (k, a) }

/-- `register_affector`: place the affector into each computed storage; on
an error, log the warning and leave every index untouched. -/
def register_affector (ctx : Ctx) (s : RegState) (a : Affector) :
    RegState × List LogMsg :=
  match getAffectorStorages ctx s a with
  | .ok refs => (refs.foldl (fun st r => addStorage st r a) s, [])
  | .error e => (s, [mkLog ctx a e])

/-- `unregister_affector`: remove the affector from each computed storage;
on an error, log the warning and leave every index untouched. -/
def unregister_affector (ctx : Ctx) (s : RegState) (a : Affector) :
    RegState × List LogMsg :=
  match getAffectorStorages ctx s a with
  | .ok refs => (refs.foldl (fun st r => rmStorage st r a) s, [])
  | .error e => (s, [mkLog ctx a e])

/-- One public mutation of the register. -/
inductive Step (ctx : Ctx) : RegState → RegState → Prop where
  | regAffectee (s : RegState) (x : Nat) :
    Step ctx s (register_affectee ctx s x)
  | unregAffectee (s : RegState) (x : Nat) :
    Step ctx s (unregister_affectee ctx s x)
  | regAffector (s : RegState) (a : Affector) :
    Step ctx s (register_affector ctx s a).1
  | unregAffector (s : RegState) (a : Affector) :
    Step ctx s (unregister_affector ctx s a).1

/-- Register states reachable from the freshly constructed register through
the public mutations, under a fixed ship/character binding. -/
inductive Reachable (ctx : Ctx) : RegState → Prop where
  | empty : Reachable ctx emptyState
  | step {s t : RegState} : Reachable ctx s → Step ctx s t → Reachable ctx t

/-- The current character, if any, is not a registered affectee. -/
def charNotRegistered (ctx : Ctx) (s : RegState) : Prop :=
  ∀ c, ctx.currentChar = some c → c ∉ s.affectee

/-- The current ship, if any, is not a registered affectee. -/
def shipNotRegistered (ctx : Ctx) (s : RegState) : Prop :=
  ∀ c, ctx.currentShip = some c → c ∉ s.affectee

/-- Key targeted in `__affector_item_other` by a storage reference. -/
def otherKey : StorageRef → Option Nat
  | .itemOther c => some c
  | _ => none

/-- Key targeted in `__affector_item_awaitable` by a storage reference. -/
def awaitKey : StorageRef → Option Nat
  | .itemAwaitable c => some c
  | _ => none

/-- Key targeted in `__affector_item_active` by a storage reference. -/
def activeKey : StorageRef → Option Nat
  | .itemActive x => some x
  | _ => none

/-- Key targeted in `__affector_domain` by a storage reference. -/
def domKey : StorageRef → Option Dom
  | .domain d => some d
  | _ => none

/-- Key targeted in `__affector_domain_group` by a storage reference. -/
def domGroupKey : StorageRef → Option (Dom × ExtraArg)
  | .domainGroup k => some k
  | _ => none

/-- Key targeted in `__affector_domain_skillrq` by a storage reference. -/
def domSkillKey : StorageRef → Option (Dom × ExtraArg)
  | .domainSkillrq k => some k
  | _ => none

/-- Key targeted in `__affector_owner_skillrq` by a storage reference. -/
def ownerKey : StorageRef → Option ExtraArg
  | .ownerSkillrq k => some k
  | _ => none

/-- What holding a slot in the computed storage list says about an affector:
each reference shape pins down the affector's filter, the key it is stored
under, and the context that routed it there. -/
def storRefOK (ctx : Ctx) (s : RegState) (a : Affector)
    (refs : List StorageRef) : StorageRef → Prop
  | .itemOther c =>
    a.modifier.tgtFilter = .item ∧ a.modifier.tgtDomain = .other ∧
    c = a.carrierItem
  | .itemAwaitable c =>
    a.modifier.tgtFilter = .item ∧ c = a.carrierItem ∧
    ((a.modifier.tgtDomain = .self ∧ a.carrierItem ∉ s.affectee) ∨
     (a.modifier.tgtDomain = .character ∧ charNotRegistered ctx s) ∨
     (a.modifier.tgtDomain = .ship ∧ shipNotRegistered ctx s))
  | .itemActive x =>
    a.modifier.tgtFilter = .item ∧ x ∈ s.affectee ∧
    ((a.modifier.tgtDomain = .self ∧ x = a.carrierItem) ∨
     (a.modifier.tgtDomain = .character ∧ ctx.currentChar = some x) ∨
     (a.modifier.tgtDomain = .ship ∧ ctx.currentShip = some x) ∨
     (a.modifier.tgtDomain = .other ∧
      x ∈ (ctx.itemData a.carrierItem).others ∧
      StorageRef.itemOther a.carrierItem ∈ refs))
  | .domain d =>
    a.modifier.tgtFilter = .domain ∧ contextizeTgtFilterDomain ctx a = .ok d
  | .domainGroup k =>
    a.modifier.tgtFilter = .domainGroup ∧
    ∃ d, contextizeTgtFilterDomain ctx a = .ok d ∧
      k = (d, a.modifier.tgtFilterExtraArg)
  | .domainSkillrq k =>
    a.modifier.tgtFilter = .domainSkillrq ∧
    ∃ d, contextizeTgtFilterDomain ctx a = .ok d ∧
      k = (d, resolveExtra (ctx.itemData a.carrierItem).typeId
        a.modifier.tgtFilterExtraArg)
  | .ownerSkillrq k =>
    a.modifier.tgtFilter = .ownerSkillrq ∧
    k = resolveExtra (ctx.itemData a.carrierItem).typeId
      a.modifier.tgtFilterExtraArg

/-- The state invariant of the affection register, maintained by all four
public mutations under a fixed ship/character binding.  The affectee
clauses tie every map entry to the stored item's static data; the affector
clauses tie every stored affector to its filter, its routing context, and
(for direct affectors) the activation state machine. -/
structure Inv (ctx : Ctx) (s : RegState) : Prop where
  affecteeDomain_sound : ∀ d x, (d, x) ∈ s.affecteeDomain →
    x ∈ s.affectee ∧ (ctx.itemData x).modifierDomain = some d
  affecteeDomainGroup_sound : ∀ k x, (k, x) ∈ s.affecteeDomainGroup →
    x ∈ s.affectee ∧ ∃ d g, k = (d, ExtraArg.value g) ∧
      (ctx.itemData x).modifierDomain = some d ∧
      (ctx.itemData x).groupId = some g
  affecteeDomainSkillrq_sound : ∀ k x, (k, x) ∈ s.affecteeDomainSkillrq →
    x ∈ s.affectee ∧ ∃ d sk, k = (d, ExtraArg.value sk) ∧
      (ctx.itemData x).modifierDomain = some d ∧
      sk ∈ (ctx.itemData x).requiredSkills
  affecteeOwnerSkillrq_sound : ∀ k x, (k, x) ∈ s.affecteeOwnerSkillrq →
    x ∈ s.affectee ∧ (ctx.itemData x).ownerModifiable = true ∧
    ∃ sk, k = ExtraArg.value sk ∧ sk ∈ (ctx.itemData x).requiredSkills
  affectorDomain_sound : ∀ d a, (d, a) ∈ s.affectorDomain →
    a.modifier.tgtFilter = .domain ∧ contextizeTgtFilterDomain ctx a = .ok d
  affectorDomainGroup_sound : ∀ k a, (k, a) ∈ s.affectorDomainGroup →
    a.modifier.tgtFilter = .domainGroup ∧
    ∃ d, contextizeTgtFilterDomain ctx a = .ok d ∧
      k = (d, a.modifier.tgtFilterExtraArg)
  affectorDomainSkillrq_sound : ∀ k a, (k, a) ∈ s.affectorDomainSkillrq →
    a.modifier.tgtFilter = .domainSkillrq ∧
    ∃ d, contextizeTgtFilterDomain ctx a = .ok d ∧
      k = (d, resolveExtra (ctx.itemData a.carrierItem).typeId
        a.modifier.tgtFilterExtraArg)
  affectorOwnerSkillrq_sound : ∀ k a, (k, a) ∈ s.affectorOwnerSkillrq →
    a.modifier.tgtFilter = .ownerSkillrq ∧
    k = resolveExtra (ctx.itemData a.carrierItem).typeId
      a.modifier.tgtFilterExtraArg
  itemOther_sound : ∀ c a, (c, a) ∈ s.affectorItemOther →
    a.modifier.tgtFilter = .item ∧ a.modifier.tgtDomain = .other ∧
    c = a.carrierItem
  awaitable_sound : ∀ c a, (c, a) ∈ s.affectorItemAwaitable →
    a.modifier.tgtFilter = .item ∧ c = a.carrierItem ∧
    ((a.modifier.tgtDomain = .self ∧ a.carrierItem ∉ s.affectee) ∨
     (a.modifier.tgtDomain = .character ∧ charNotRegistered ctx s) ∨
     (a.modifier.tgtDomain = .ship ∧ shipNotRegistered ctx s))
  active_sound : ∀ x a, (x, a) ∈ s.affectorItemActive →
    a.modifier.tgtFilter = .item ∧ x ∈ s.affectee ∧
    ((a.modifier.tgtDomain = .self ∧ x = a.carrierItem) ∨
     (a.modifier.tgtDomain = .character ∧ ctx.currentChar = some x) ∨
     (a.modifier.tgtDomain = .ship ∧ ctx.currentShip = some x) ∨
     (a.modifier.tgtDomain = .other ∧
      x ∈ (ctx.itemData a.carrierItem).others ∧
      (a.carrierItem, a) ∈ s.affectorItemOther))
  other_complete : ∀ c a, (c, a) ∈ s.affectorItemOther →
    ∀ x, x ∈ s.affectee → x ∈ (ctx.itemData c).others →
      (x, a) ∈ s.affectorItemActive

/-- An affector currently held anywhere in the register's affector indices:
this is what being registered (and not since unregistered) amounts to in
the register's state. -/
def registeredAffector (s : RegState) (a : Affector) : Prop :=
  (∃ k, (k, a) ∈ s.affectorItemOther) ∨
  (∃ k, (k, a) ∈ s.affectorItemAwaitable) ∨
  (∃ k, (k, a) ∈ s.affectorItemActive) ∨
  (∃ k, (k, a) ∈ s.affectorDomain) ∨
  (∃ k, (k, a) ∈ s.affectorDomainGroup) ∨
  (∃ k, (k, a) ∈ s.affectorDomainSkillrq) ∨
  (∃ k, (k, a) ∈ s.affectorOwnerSkillrq)

/-! Exact rational arithmetic for the RAH simulator.  `Rat` from the
library does not reduce inside the kernel, so the simulator uses its own
normalized fractions, with a `toRat` bridge for stating results. -/

/-- A rational number as a normalized numerator/denominator pair. -/
structure Q where
  num : Int
  den : Nat
deriving DecidableEq

/-- Build a fraction in lowest terms (denominator expected positive). -/
def Q.mk' (n : Int) (d : Nat) : Q :=
  let g := n.natAbs.gcd d
  if g = 0 then ⟨0, 1⟩ else ⟨n / (g : Int), d / g⟩

/-- Embed an integer. -/
def Q.ofInt (n : Int) : Q := ⟨n, 1⟩

/-- Addition. -/
def Q.add (a b : Q) : Q :=
  Q.mk' (a.num * (b.den : Int) + b.num * (a.den : Int)) (a.den * b.den)

/-- Subtraction. -/
def Q.sub (a b : Q) : Q :=
  Q.mk' (a.num * (b.den : Int) - b.num * (a.den : Int)) (a.den * b.den)

/-- Multiplication. -/
def Q.mul (a b : Q) : Q := Q.mk' (a.num * b.num) (a.den * b.den)

/-- Division by a positive natural number. -/
def Q.divNat (a : Q) (k : Nat) : Q := Q.mk' a.num (a.den * k)

/-- Comparison (denominators are positive). -/
def Q.leb (a b : Q) : Bool :=
  decide (a.num * (b.den : Int) ≤ b.num * (a.den : Int))

/-- Minimum. -/
def Q.minQ (a b : Q) : Q := if a.leb b then a else b

/-- Maximum. -/
def Q.maxQ (a b : Q) : Q := if a.leb b then b else a

/-- The rational number a `Q` denotes. -/
def Q.toRat (q : Q) : ℚ := (q.num : ℚ) / (q.den : ℚ)

/-- Insert into a sorted list using a boolean comparison. -/
def insertLe {α : Type} (le : α → α → Bool) (x : α) : List α → List α
  | [] => [x]
  | y :: ys => if le y x then y :: insertLe le x ys else x :: y :: ys

/-- Insertion sort (ascending, stable). -/
def isort {α : Type} (le : α → α → Bool) : List α → List α
  | [] => []
  | x :: xs => insertLe le x (isort le xs)

/-- Modelled from the spec: one RAH cycle completion
(`eos.fit.sim.reactive_armor_hardener`, whose source is not under src).
Damage types are indexed 0..3 (em, thermal, kinetic, explosive); received
damage is the incoming profile times the ship's simulated resonance
(ship base times current RAH resonance).  The two types taking the least
damage each give up `shift` resonance points, capped by the resistance
they have left (resonance cannot exceed 1); the donated total is split
equally between the two types taking the most damage, whose resonance is
floored at 0.  In the scenarios proved here the damage ranking never
ties, so tie-splitting does not arise. -/
def rahTick (base prof : List Q) (shift : Q) (r : List Q) : List Q :=
  let at0 := fun (l : List Q) (i : Nat) => l.getD i (Q.ofInt 0)
  let dmg := fun i => ((at0 prof i).mul (at0 base i)).mul (at0 r i)
  let order := isort (fun i j => (dmg i).leb (dmg j)) [0, 1, 2, 3]
  let donors := order.take 2
  let recips := order.drop 2
  let give := fun i => Q.minQ shift ((Q.ofInt 1).sub (at0 r i))
  let donated := donors.foldl (fun acc i => acc.add (give i)) (Q.ofInt 0)
  (List.range 4).map (fun i =>
    if i ∈ donors then (at0 r i).add (give i)
    else if i ∈ recips then
      Q.maxQ (Q.ofInt 0) ((at0 r i).sub (donated.divNat 2))
    else at0 r i)

/-- Modelled from the spec: the time-weighted mean of resonance states;
with a single RAH of fixed cycle time every state spans one cycle, so the
weights are uniform and this is the componentwise plain mean. -/
def avgStates (states : List (List Q)) : List Q :=
  (List.range 4).map (fun i =>
    ((states.map (fun st => st.getD i (Q.ofInt 0))).foldl Q.add
      (Q.ofInt 0)).divNat states.length)

/-- Modelled from the spec: loop detection.  Look for the longest repeated
suffix of the history — the last `L` states equal to the `L` states before
them — and return it. -/
def loopSuffix (hist : List (List Q)) : Option (List (List Q)) :=
  let n := hist.length
  let cand := ((List.range (n / 2 + 1)).reverse.filter
    (fun L => (L != 0) &&
      decide (hist.drop (n - L) = (hist.drop (n - 2 * L)).take L))).head?
  cand.map (fun L => hist.drop (n - L))

/-- Modelled from the spec: tick until a loop is found, then average over
one loop period; if the tick budget runs out, fall back to a mean over the
tail half of the history. -/
def simLoop (base prof : List Q) (shift : Q) :
    Nat → List (List Q) → List Q → List Q
  | 0, hist, _ => avgStates (hist.drop (hist.length / 2))
  | fuel + 1, hist, r =>
    let r2 := rahTick base prof shift r
    let hist2 := hist ++ [r2]
    match loopSuffix hist2 with
    | some loop => avgStates loop
    | none => simLoop base prof shift fuel hist2 r2

/-- The simulator's tick budget. -/
def MAX_SIMULATION_TICKS : Nat := 500

/-- Modelled from the spec: the RAH simulation entry point.  A zero cycle
time makes the tick computation blow up, which surfaces as the exception
the wrapper catches. -/
def simulateRah (base prof r0 : List Q) (shift cycleTime : Q) :
    Except Unit (List Q) :=
  if cycleTime = Q.ofInt 0 then .error ()
  else .ok (simLoop base prof shift MAX_SIMULATION_TICKS [r0] r0)

/-- The fixed warning logged when the simulation raises. -/
def rahWarning : String := "unexpected exception, setting unsimulated resonances"

/-- Modelled from the spec: run the simulation; on success the averaged
resonances replace the RAH's attributes, on any exception the fixed warning
is logged once and the unsimulated resonances are kept. -/
def applyRahSim (base prof r0 : List Q) (shift cycleTime : Q) :
    List Q × List String :=
  match simulateRah base prof r0 shift cycleTime with
  | .ok avg => (avg, [])
  | .error _ => (r0, [rahWarning])

/-- Modelled from the spec: the ship's resonance attributes are its base
resonances multiplied by the RAH's resonance multipliers (a single RAH is
one modifier per attribute, so no stacking penalty applies). -/
def shipApply (base mult : List Q) : List Q := List.zipWith Q.mul base mult

/-- The C6/C7 scenario's ship base resonances (0.5, 0.65, 0.75, 0.9). -/
def c6ShipBase : List Q := [⟨1, 2⟩, ⟨13, 20⟩, ⟨3, 4⟩, ⟨9, 10⟩]

/-- The default incoming damage profile (25, 25, 25, 25). -/
def c6Profile : List Q := [⟨25, 1⟩, ⟨25, 1⟩, ⟨25, 1⟩, ⟨25, 1⟩]

/-- The RAH's base resonances (0.85, 0.85, 0.85, 0.85). -/
def c6RahBase : List Q := [⟨17, 20⟩, ⟨17, 20⟩, ⟨17, 20⟩, ⟨17, 20⟩]

/-- The RAH's shift amount, 6 percentage points. -/
def c6Shift : Q := ⟨3, 50⟩

/-- The simulated outcome of the C6 scenario (RAH with shift 6 and cycle
time 1000 on the C6 ship). -/
def c6Result : List Q × List String :=
  applyRahSim c6ShipBase c6Profile c6RahBase c6Shift ⟨1000, 1⟩

/-- The C6 ship resonances: base resonances times the simulated RAH
multipliers, as rational numbers. -/
def c6Ship : List ℚ := (shipApply c6ShipBase c6Result.1).map Q.toRat

/-- A concrete environment for witnesses: item 1 is the current ship, no
character; every item's static data is simple fixed values. -/
def wCtx : Ctx :=
  ⟨fun i => ⟨i + 100, some 7, [3], some Dom.ship, true, []⟩, some 1, none⟩

/-- A direct ship-targeting affector carried by item 2. -/
def c1Affector : Affector := ⟨2, ⟨.item, .ship, .noArg⟩⟩

/-- The register state of the C1 witness: the ship (item 1) registered as
an affectee, then the direct ship-targeting affector registered. -/
def c1State : RegState :=
  (register_affector wCtx (register_affectee wCtx emptyState 1) c1Affector).1

/-- An affector with an unknown target filter (raw value 99). -/
def c2Affector : Affector := ⟨4, ⟨.invalid 99, .self, .noArg⟩⟩

/-- A direct ship-targeting affector carried by item 6. -/
def c3Affector : Affector := ⟨6, ⟨.item, .ship, .noArg⟩⟩

/-- A register state with one active direct affector keyed on item 5. -/
def c3State : RegState :=
  { emptyState with affectorItemActive := {(5, c3Affector)} }

/-- An `owner_skillrq` affector with domain `self` whose carrier (item 2)
is neither the current ship nor the current character of `wCtx`. -/
def c5Affector : Affector := ⟨2, ⟨.ownerSkillrq, .self, .value 9⟩⟩

/-- A `domain`-filtered affector with domain `self` carried by the current
ship of `wCtx`. -/
def c5ShipAffector : Affector := ⟨1, ⟨.domain, .self, .noArg⟩⟩

/-- A `domain_group`-filtered affector with target domain `other`. -/
def c10Affector : Affector := ⟨3, ⟨.domainGroup, .other, .value 7⟩⟩

/-! The effect info builder's category handling, modelled from the spec. -/

/-- Effect categories (`EffectCategory`). -/
inductive EffectCategory where
  | passive
  | active
  | target
  | area
  | online
  | overload
  | dungeon
  | system
deriving DecidableEq

/-- Item states, ordered offline < online < active < overload. -/
inductive ItemState where
  | offline
  | online
  | active
  | overload
deriving DecidableEq

/-- Modifier application context. -/
inductive ModContext where
  | localCtx
  | projected
deriving DecidableEq

/-- Build status reported by the effect info builder. -/
inductive EffectBuildStatus where
  | okFull
  | error
deriving DecidableEq

/-- A modifier emitted by the effect builder: an opaque payload plus the
minimum activation state and context stamped from the effect category. -/
structure BuiltInfo where
  payload : Nat
  state : ItemState
  context : ModContext
deriving DecidableEq

/-- Modelled from the spec: the category → (minimum state, context) table
of the effect info builder (`InfoBuilder`, whose source is not under src);
area and dungeon have no entry and are rejected. -/
def categoryDetails : EffectCategory → Option (ItemState × ModContext)
  | .passive => some (.offline, .localCtx)
  | .active => some (.active, .localCtx)
  | .target => some (.active, .projected)
  | .area => none
  | .online => some (.online, .localCtx)
  | .overload => some (.overload, .localCtx)
  | .dungeon => none
  | .system => some (.offline, .localCtx)

/-- Modelled from the spec: the builder stamps every emitted modifier with
its category's state and context, and returns status `error` with no
modifiers for the two rejected categories. -/
def buildEffect (cat : EffectCategory) (protos : List Nat) :
    EffectBuildStatus × List BuiltInfo :=
  match categoryDetails cat with
  | some (st, cx) => (.okFull, protos.map (fun p => ⟨p, st, cx⟩))
  | none => (.error, [])

/-! Membership lemmas for the keyed-storage embedding. -/

theorem mem_kget {κ α : Type} [DecidableEq κ] [DecidableEq α]
    {m : Finset (κ × α)} {k : κ} {v : α} : v ∈ kget m k ↔ (k, v) ∈ m := by
  constructor
  · intro h
    rcases Finset.mem_image.1 h with ⟨p, hp, hv⟩
    rcases Finset.mem_filter.1 hp with ⟨hm, hk⟩
    have : p = (k, v) := Prod.ext hk hv
    exact this ▸ hm
  · intro h
    exact Finset.mem_image.2 ⟨(k, v), Finset.mem_filter.2 ⟨h, rfl⟩, rfl⟩

theorem mem_addKeyed {κ α : Type} [DecidableEq κ] [DecidableEq α]
    {m : Finset (κ × α)} {ks : List κ} {v : α} {p : κ × α} :
    p ∈ addKeyed m ks v ↔ p ∈ m ∨ ∃ k ∈ ks, p = (k, v) := by
  induction ks generalizing m with
  | nil => simp [addKeyed]
  | cons k ks ih =>
    simp only [addKeyed, List.foldl_cons] at *
    rw [ih]
    simp only [Finset.mem_insert, List.mem_cons]
    constructor
    · rintro (⟨h | h⟩ | ⟨k', hk', rfl⟩)
      · exact Or.inr ⟨k, Or.inl rfl, h⟩
      · exact Or.inl h
      · exact Or.inr ⟨k', Or.inr hk', rfl⟩
    · rintro (h | ⟨k', (rfl | hk'), rfl⟩)
      · exact Or.inl (Or.inr h)
      · exact Or.inl (Or.inl rfl)
      · exact Or.inr ⟨k', hk', rfl⟩

theorem mem_rmKeyed {κ α : Type} [DecidableEq κ] [DecidableEq α]
    {m : Finset (κ × α)} {ks : List κ} {v : α} {p : κ × α} :
    p ∈ rmKeyed m ks v ↔ p ∈ m ∧ ∀ k ∈ ks, p ≠ (k, v) := by
  induction ks generalizing m with
  | nil => simp [rmKeyed]
  | cons k ks ih =>
    simp only [rmKeyed, List.foldl_cons] at *
    rw [ih]
    simp only [Finset.mem_erase, List.mem_cons]
    constructor
    · rintro ⟨⟨hne, hm⟩, hall⟩
      refine ⟨hm, ?_⟩
      rintro k' (rfl | hk')
      · exact hne
      · exact hall k' hk'
    · rintro ⟨hm, hall⟩
      exact ⟨⟨hall k (Or.inl rfl), hm⟩, fun k' hk' => hall k' (Or.inr hk')⟩

theorem mem_foldl_union {β γ : Type} [DecidableEq γ] (l : List β)
    (f : β → Finset γ) (init : Finset γ) (g : γ) :
    g ∈ l.foldl (fun acc b => acc ∪ f b) init ↔
      g ∈ init ∨ ∃ b ∈ l, g ∈ f b := by
  induction l generalizing init with
  | nil => simp
  | cons b l ih =>
    simp only [List.foldl_cons, ih, Finset.mem_union, List.mem_cons]
    constructor
    · rintro ((h | h) | ⟨b', hb', hg⟩)
      · exact Or.inl h
      · exact Or.inr ⟨b, Or.inl rfl, h⟩
      · exact Or.inr ⟨b', Or.inr hb', hg⟩
    · rintro (h | ⟨b', (rfl | hb'), hg⟩)
      · exact Or.inl (Or.inl h)
      · exact Or.inl (Or.inr hg)
      · exact Or.inr ⟨b', hb', hg⟩

/-! Structural description of storage folds. -/

theorem foldl_addStorage_eq (a : Affector) (refs : List StorageRef)
    (s : RegState) :
    refs.foldl (fun st r => addStorage st r a) s =
    { s with
      affectorItemOther :=
        addKeyed s.affectorItemOther (refs.filterMap otherKey) a,
      affectorItemAwaitable :=
        addKeyed s.affectorItemAwaitable (refs.filterMap awaitKey) a,
      affectorItemActive :=
        addKeyed s.affectorItemActive (refs.filterMap activeKey) a,
      affectorDomain := addKeyed s.affectorDomain (refs.filterMap domKey) a,
      affectorDomainGroup :=
        addKeyed s.affectorDomainGroup (refs.filterMap domGroupKey) a,
      affectorDomainSkillrq :=
        addKeyed s.affectorDomainSkillrq (refs.filterMap domSkillKey) a,
      affectorOwnerSkillrq :=
        addKeyed s.affectorOwnerSkillrq (refs.filterMap ownerKey) a } := by
  induction refs generalizing s with
  | nil => rfl
  | cons r refs ih =>
    rw [List.foldl_cons, ih]
    cases r <;> rfl

theorem foldl_rmStorage_eq (a : Affector) (refs : List StorageRef)
    (s : RegState) :
    refs.foldl (fun st r => rmStorage st r a) s =
    { s with
      affectorItemOther :=
        rmKeyed s.affectorItemOther (refs.filterMap otherKey) a,
      affectorItemAwaitable :=
        rmKeyed s.affectorItemAwaitable (refs.filterMap awaitKey) a,
      affectorItemActive :=
        rmKeyed s.affectorItemActive (refs.filterMap activeKey) a,
      affectorDomain := rmKeyed s.affectorDomain (refs.filterMap domKey) a,
      affectorDomainGroup :=
        rmKeyed s.affectorDomainGroup (refs.filterMap domGroupKey) a,
      affectorDomainSkillrq :=
        rmKeyed s.affectorDomainSkillrq (refs.filterMap domSkillKey) a,
      affectorOwnerSkillrq :=
        rmKeyed s.affectorOwnerSkillrq (refs.filterMap ownerKey) a } := by
  induction refs generalizing s with
  | nil => rfl
  | cons r refs ih =>
    rw [List.foldl_cons, ih]
    cases r <;> rfl

theorem mem_filterMap_otherKey {refs : List StorageRef} {c : Nat} :
    c ∈ refs.filterMap otherKey ↔ StorageRef.itemOther c ∈ refs := by
  rw [List.mem_filterMap]
  constructor
  · rintro ⟨r, hr, hk⟩
    cases r <;> simp_all [otherKey]
  · intro h
    exact ⟨.itemOther c, h, rfl⟩

theorem mem_filterMap_awaitKey {refs : List StorageRef} {c : Nat} :
    c ∈ refs.filterMap awaitKey ↔ StorageRef.itemAwaitable c ∈ refs := by
  rw [List.mem_filterMap]
  constructor
  · rintro ⟨r, hr, hk⟩
    cases r <;> simp_all [awaitKey]
  · intro h
    exact ⟨.itemAwaitable c, h, rfl⟩

theorem mem_filterMap_activeKey {refs : List StorageRef} {c : Nat} :
    c ∈ refs.filterMap activeKey ↔ StorageRef.itemActive c ∈ refs := by
  rw [List.mem_filterMap]
  constructor
  · rintro ⟨r, hr, hk⟩
    cases r <;> simp_all [activeKey]
  · intro h
    exact ⟨.itemActive c, h, rfl⟩

theorem mem_filterMap_domKey {refs : List StorageRef} {d : Dom} :
    d ∈ refs.filterMap domKey ↔ StorageRef.domain d ∈ refs := by
  rw [List.mem_filterMap]
  constructor
  · rintro ⟨r, hr, hk⟩
    cases r <;> simp_all [domKey]
  · intro h
    exact ⟨.domain d, h, rfl⟩

theorem mem_filterMap_domGroupKey {refs : List StorageRef}
    {k : Dom × ExtraArg} :
    k ∈ refs.filterMap domGroupKey ↔ StorageRef.domainGroup k ∈ refs := by
  rw [List.mem_filterMap]
  constructor
  · rintro ⟨r, hr, hk⟩
    cases r <;> simp_all [domGroupKey]
  · intro h
    exact ⟨.domainGroup k, h, rfl⟩

theorem mem_filterMap_domSkillKey {refs : List StorageRef}
    {k : Dom × ExtraArg} :
    k ∈ refs.filterMap domSkillKey ↔ StorageRef.domainSkillrq k ∈ refs := by
  rw [List.mem_filterMap]
  constructor
  · rintro ⟨r, hr, hk⟩
    cases r <;> simp_all [domSkillKey]
  · intro h
    exact ⟨.domainSkillrq k, h, rfl⟩

theorem mem_filterMap_ownerKey {refs : List StorageRef} {k : ExtraArg} :
    k ∈ refs.filterMap ownerKey ↔ StorageRef.ownerSkillrq k ∈ refs := by
  rw [List.mem_filterMap]
  constructor
  · rintro ⟨r, hr, hk⟩
    cases r <;> simp_all [ownerKey]
  · intro h
    exact ⟨.ownerSkillrq k, h, rfl⟩

/-- Everything `__get_affector_storages` promises about the storage list it
returns: each slot satisfies `storRefOK`, and an `other`-filter slot comes
with active slots for every registered peer of the carrier. -/
theorem storages_spec {ctx : Ctx} {s : RegState} {a : Affector}
    {refs : List StorageRef}
    (h : getAffectorStorages ctx s a = .ok refs) :
    (∀ r ∈ refs, storRefOK ctx s a refs r) ∧
    (∀ c, StorageRef.itemOther c ∈ refs →
      ∀ y, y ∈ s.affectee → y ∈ (ctx.itemData c).others →
        StorageRef.itemActive y ∈ refs) := by
  unfold getAffectorStorages at h
  cases hfil : a.modifier.tgtFilter <;> simp only [hfil] at h
  case item =>
    cases hdom : a.modifier.tgtDomain <;> simp only [hdom] at h
    case self =>
      by_cases hc : a.carrierItem ∈ s.affectee <;>
        simp only [hc, if_true, if_false, Except.ok.injEq] at h <;> subst h
      · refine ⟨?_, by simp⟩
        rintro r hr
        rcases List.mem_singleton.1 hr with rfl
        exact ⟨hfil, hc, Or.inl ⟨hdom, rfl⟩⟩
      · refine ⟨?_, by simp⟩
        rintro r hr
        rcases List.mem_singleton.1 hr with rfl
        exact ⟨hfil, rfl, Or.inl ⟨hdom, hc⟩⟩
    case character =>
      cases hch : ctx.currentChar with
      | none =>
        simp only [hch, Except.ok.injEq] at h
        subst h
        refine ⟨?_, by simp⟩
        rintro r hr
        rcases List.mem_singleton.1 hr with rfl
        refine ⟨hfil, rfl, Or.inr (Or.inl ⟨hdom, ?_⟩)⟩
        intro c hc
        rw [hch] at hc
        cases hc
      | some ch =>
        by_cases hc : ch ∈ s.affectee <;>
          simp only [hch, hc, if_true, if_false, Except.ok.injEq] at h <;>
          subst h
        · refine ⟨?_, by simp⟩
          rintro r hr
          rcases List.mem_singleton.1 hr with rfl
          exact ⟨hfil, hc, Or.inr (Or.inl ⟨hdom, hch⟩)⟩
        · refine ⟨?_, by simp⟩
          rintro r hr
          rcases List.mem_singleton.1 hr with rfl
          refine ⟨hfil, rfl, Or.inr (Or.inl ⟨hdom, ?_⟩)⟩
          intro c hc'
          rw [hch] at hc'
          cases hc'
          exact hc
    case ship =>
      cases hsh : ctx.currentShip with
      | none =>
        simp only [hsh, Except.ok.injEq] at h
        subst h
        refine ⟨?_, by simp⟩
        rintro r hr
        rcases List.mem_singleton.1 hr with rfl
        refine ⟨hfil, rfl, Or.inr (Or.inr ⟨hdom, ?_⟩)⟩
        intro c hc
        rw [hsh] at hc
        cases hc
      | some sh =>
        by_cases hc : sh ∈ s.affectee <;>
          simp only [hsh, hc, if_true, if_false, Except.ok.injEq] at h <;>
          subst h
        · refine ⟨?_, by simp⟩
          rintro r hr
          rcases List.mem_singleton.1 hr with rfl
          exact ⟨hfil, hc, Or.inr (Or.inr (Or.inl ⟨hdom, hsh⟩))⟩
        · refine ⟨?_, by simp⟩
          rintro r hr
          rcases List.mem_singleton.1 hr with rfl
          refine ⟨hfil, rfl, Or.inr (Or.inr ⟨hdom, ?_⟩)⟩
          intro c hc'
          rw [hsh] at hc'
          cases hc'
          exact hc
    case other =>
      rw [Except.ok.injEq] at h
      subst h
      constructor
      · rintro r hr
        rcases List.mem_cons.1 hr with rfl | hr2
        · exact ⟨hfil, hdom, rfl⟩
        · rcases List.mem_map.1 hr2 with ⟨y, hy, rfl⟩
          rcases List.mem_filter.1 hy with ⟨hyo, hya⟩
          rw [decide_eq_true_eq] at hya
          refine ⟨hfil, hya, Or.inr (Or.inr (Or.inr ⟨hdom, hyo, ?_⟩))⟩
          exact List.mem_cons_self _ _
      · intro c hc y hy hyo
        rcases List.mem_cons.1 hc with hceq | hc2
        · cases hceq
          refine List.mem_cons.2 (Or.inr ?_)
          exact List.mem_map.2
            ⟨y, List.mem_filter.2 ⟨hyo, decide_eq_true hy⟩, rfl⟩
        · rcases List.mem_map.1 hc2 with ⟨y', hy', hy'eq⟩
          simp at hy'eq
    case invalid => cases h
  case domain =>
    cases hctx : contextizeTgtFilterDomain ctx a <;>
      simp only [hctx, Except.map, Except.ok.injEq] at h
    case error => exact absurd h (by simp)
    case ok =>
    subst h
    refine ⟨?_, by simp⟩
    rintro r hr
    rcases List.mem_singleton.1 hr with rfl
    exact ⟨hfil, hctx⟩
  case domainGroup =>
    cases hctx : contextizeTgtFilterDomain ctx a <;>
      simp only [hctx, Except.map, Except.ok.injEq] at h
    case error => exact absurd h (by simp)
    case ok =>
    subst h
    refine ⟨?_, by simp⟩
    rintro r hr
    rcases List.mem_singleton.1 hr with rfl
    exact ⟨hfil, _, hctx, rfl⟩
  case domainSkillrq =>
    cases hctx : contextizeTgtFilterDomain ctx a <;>
      simp only [hctx, Except.map, Except.ok.injEq] at h
    case error => exact absurd h (by simp)
    case ok =>
    subst h
    refine ⟨?_, by simp⟩
    rintro r hr
    rcases List.mem_singleton.1 hr with rfl
    exact ⟨hfil, _, hctx, rfl⟩
  case ownerSkillrq =>
    rw [Except.ok.injEq] at h
    subst h
    refine ⟨?_, by simp⟩
    rintro r hr
    rcases List.mem_singleton.1 hr with rfl
    exact ⟨hfil, rfl⟩
  case invalid => cases h

/-- When `__get_affector_storages` raises, `get_affectees` raises the same
error on the same affector. -/
theorem storages_error_affectees {ctx : Ctx} {s : RegState} {a : Affector}
    {e : RegError} (h : getAffectorStorages ctx s a = .error e) :
    getAffecteesRaw ctx s a = .error e := by
  unfold getAffectorStorages at h
  unfold getAffecteesRaw
  cases hfil : a.modifier.tgtFilter <;> simp only [hfil] at h ⊢
  case item =>
    cases hdom : a.modifier.tgtDomain <;> simp only [hdom] at h ⊢
    case self =>
      by_cases hc : a.carrierItem ∈ s.affectee <;> simp [hc] at h
    case character =>
      cases hch : ctx.currentChar with
      | none => simp [hch] at h
      | some ch => by_cases hc : ch ∈ s.affectee <;> simp [hch, hc] at h
    case ship =>
      cases hsh : ctx.currentShip with
      | none => simp [hsh] at h
      | some sh => by_cases hc : sh ∈ s.affectee <;> simp [hsh, hc] at h
    case other => exact absurd h (by simp)
    case invalid =>
      injection h with h2
      exact congrArg Except.error h2
  case domain =>
    cases hctx : contextizeTgtFilterDomain ctx a <;>
      simp only [hctx, Except.map] at h ⊢
    · injection h with h2
      exact congrArg Except.error h2
    · exact absurd h (by simp)
  case domainGroup =>
    cases hctx : contextizeTgtFilterDomain ctx a <;>
      simp only [hctx, Except.map] at h ⊢
    · injection h with h2
      exact congrArg Except.error h2
    · exact absurd h (by simp)
  case domainSkillrq =>
    cases hctx : contextizeTgtFilterDomain ctx a <;>
      simp only [hctx, Except.map] at h ⊢
    · injection h with h2
      exact congrArg Except.error h2
    · exact absurd h (by simp)
  case ownerSkillrq => exact absurd h (by simp)
  case invalid =>
    injection h with h2
    exact congrArg Except.error h2

theorem mem_affecteeDomainKeys {it : ItemData} {d : Dom} :
    d ∈ affecteeDomainKeys it ↔ it.modifierDomain = some d := by
  unfold affecteeDomainKeys
  cases h : it.modifierDomain <;> simp [h, eq_comm]

theorem mem_affecteeDomainGroupKeys {it : ItemData} {k : Dom × ExtraArg} :
    k ∈ affecteeDomainGroupKeys it ↔
      ∃ d g, it.modifierDomain = some d ∧ it.groupId = some g ∧
        k = (d, ExtraArg.value g) := by
  unfold affecteeDomainGroupKeys
  cases h1 : it.modifierDomain <;> cases h2 : it.groupId <;>
    simp [h1, h2, eq_comm]

theorem mem_affecteeDomainSkillrqKeys {it : ItemData} {k : Dom × ExtraArg} :
    k ∈ affecteeDomainSkillrqKeys it ↔
      ∃ d sk, it.modifierDomain = some d ∧ sk ∈ it.requiredSkills ∧
        k = (d, ExtraArg.value sk) := by
  unfold affecteeDomainSkillrqKeys
  cases h : it.modifierDomain <;> simp [h, List.mem_map, eq_comm]

theorem mem_affecteeOwnerSkillrqKeys {it : ItemData} {k : ExtraArg} :
    k ∈ affecteeOwnerSkillrqKeys it ↔
      it.ownerModifiable = true ∧
      ∃ sk, sk ∈ it.requiredSkills ∧ k = ExtraArg.value sk := by
  unfold affecteeOwnerSkillrqKeys
  cases h : it.ownerModifiable <;> simp [h, List.mem_map, eq_comm]

/-- The fresh register satisfies the invariant. -/
theorem inv_empty (ctx : Ctx) : Inv ctx emptyState := by
  refine ⟨?_, ?_, ?_, ?_, ?_, ?_, ?_, ?_, ?_, ?_, ?_, ?_⟩ <;>
    intro k b hmem <;> simp [emptyState] at hmem

/-- `register_affector` preserves the invariant. -/
theorem inv_register_affector {ctx : Ctx} {s : RegState} (hi : Inv ctx s)
    (a : Affector) : Inv ctx (register_affector ctx s a).1 := by
  unfold register_affector
  cases hst : getAffectorStorages ctx s a with
  | error e => exact hi
  | ok refs =>
    have hspec := storages_spec hst
    show Inv ctx (refs.foldl (fun st r => addStorage st r a) s)
    rw [foldl_addStorage_eq]
    refine ⟨hi.affecteeDomain_sound, hi.affecteeDomainGroup_sound,
      hi.affecteeDomainSkillrq_sound, hi.affecteeOwnerSkillrq_sound,
      ?_, ?_, ?_, ?_, ?_, ?_, ?_, ?_⟩
    · intro d b hmem
      rcases mem_addKeyed.1 hmem with hold | ⟨k, hk, heq⟩
      · exact hi.affectorDomain_sound d b hold
      · rw [Prod.mk.injEq] at heq
        obtain ⟨rfl, rfl⟩ := heq
        exact hspec.1 _ (mem_filterMap_domKey.1 hk)
    · intro k' b hmem
      rcases mem_addKeyed.1 hmem with hold | ⟨k, hk, heq⟩
      · exact hi.affectorDomainGroup_sound k' b hold
      · rw [Prod.mk.injEq] at heq
        obtain ⟨rfl, rfl⟩ := heq
        exact hspec.1 _ (mem_filterMap_domGroupKey.1 hk)
    · intro k' b hmem
      rcases mem_addKeyed.1 hmem with hold | ⟨k, hk, heq⟩
      · exact hi.affectorDomainSkillrq_sound k' b hold
      · rw [Prod.mk.injEq] at heq
        obtain ⟨rfl, rfl⟩ := heq
        exact hspec.1 _ (mem_filterMap_domSkillKey.1 hk)
    · intro k' b hmem
      rcases mem_addKeyed.1 hmem with hold | ⟨k, hk, heq⟩
      · exact hi.affectorOwnerSkillrq_sound k' b hold
      · rw [Prod.mk.injEq] at heq
        obtain ⟨rfl, rfl⟩ := heq
        exact hspec.1 _ (mem_filterMap_ownerKey.1 hk)
    · intro c b hmem
      rcases mem_addKeyed.1 hmem with hold | ⟨k, hk, heq⟩
      · exact hi.itemOther_sound c b hold
      · rw [Prod.mk.injEq] at heq
        obtain ⟨rfl, rfl⟩ := heq
        exact hspec.1 _ (mem_filterMap_otherKey.1 hk)
    · intro c b hmem
      rcases mem_addKeyed.1 hmem with hold | ⟨k, hk, heq⟩
      · exact hi.awaitable_sound c b hold
      · rw [Prod.mk.injEq] at heq
        obtain ⟨rfl, rfl⟩ := heq
        exact hspec.1 _ (mem_filterMap_awaitKey.1 hk)
    · intro y b hmem
      rcases mem_addKeyed.1 hmem with hold | ⟨k, hk, heq⟩
      · obtain ⟨h1, h2, h3⟩ := hi.active_sound y b hold
        refine ⟨h1, h2, ?_⟩
        rcases h3 with h | h | h | ⟨hd, ho, hio⟩
        · exact Or.inl h
        · exact Or.inr (Or.inl h)
        · exact Or.inr (Or.inr (Or.inl h))
        · exact Or.inr (Or.inr (Or.inr
            ⟨hd, ho, mem_addKeyed.2 (Or.inl hio)⟩))
      · rw [Prod.mk.injEq] at heq
        obtain ⟨rfl, rfl⟩ := heq
        obtain ⟨h1, h2, h3⟩ := hspec.1 _ (mem_filterMap_activeKey.1 hk)
        refine ⟨h1, h2, ?_⟩
        rcases h3 with h | h | h | ⟨hd, ho, href⟩
        · exact Or.inl h
        · exact Or.inr (Or.inl h)
        · exact Or.inr (Or.inr (Or.inl h))
        · refine Or.inr (Or.inr (Or.inr ⟨hd, ho, mem_addKeyed.2 (Or.inr
            ⟨b.carrierItem, mem_filterMap_otherKey.2 href, rfl⟩)⟩))
    · intro c b hmem y hy hyo
      rcases mem_addKeyed.1 hmem with hold | ⟨k, hk, heq⟩
      · exact mem_addKeyed.2 (Or.inl (hi.other_complete c b hold y hy hyo))
      · rw [Prod.mk.injEq] at heq
        obtain ⟨rfl, rfl⟩ := heq
        have href := hspec.2 c (mem_filterMap_otherKey.1 hk) y hy hyo
        exact mem_addKeyed.2 (Or.inr ⟨y, mem_filterMap_activeKey.2 href, rfl⟩)

/-- `unregister_affector` preserves the invariant. -/
theorem inv_unregister_affector {ctx : Ctx} {s : RegState} (hi : Inv ctx s)
    (a : Affector) : Inv ctx (unregister_affector ctx s a).1 := by
  unfold unregister_affector
  cases hst : getAffectorStorages ctx s a with
  | error e => exact hi
  | ok refs =>
    have hspec := storages_spec hst
    show Inv ctx (refs.foldl (fun st r => rmStorage st r a) s)
    rw [foldl_rmStorage_eq]
    refine ⟨hi.affecteeDomain_sound, hi.affecteeDomainGroup_sound,
      hi.affecteeDomainSkillrq_sound, hi.affecteeOwnerSkillrq_sound,
      ?_, ?_, ?_, ?_, ?_, ?_, ?_, ?_⟩
    · intro d b hmem
      exact hi.affectorDomain_sound d b (mem_rmKeyed.1 hmem).1
    · intro k b hmem
      exact hi.affectorDomainGroup_sound k b (mem_rmKeyed.1 hmem).1
    · intro k b hmem
      exact hi.affectorDomainSkillrq_sound k b (mem_rmKeyed.1 hmem).1
    · intro k b hmem
      exact hi.affectorOwnerSkillrq_sound k b (mem_rmKeyed.1 hmem).1
    · intro c b hmem
      exact hi.itemOther_sound c b (mem_rmKeyed.1 hmem).1
    · intro c b hmem
      exact hi.awaitable_sound c b (mem_rmKeyed.1 hmem).1
    · intro y b hmem
      obtain ⟨hold, hne⟩ := mem_rmKeyed.1 hmem
      obtain ⟨h1, h2, h3⟩ := hi.active_sound y b hold
      refine ⟨h1, h2, ?_⟩
      rcases h3 with h | h | h | ⟨hd, ho, hio⟩
      · exact Or.inl h
      · exact Or.inr (Or.inl h)
      · exact Or.inr (Or.inr (Or.inl h))
      · refine Or.inr (Or.inr (Or.inr ⟨hd, ho, mem_rmKeyed.2 ⟨hio, ?_⟩⟩))
        intro c hc heq
        rw [Prod.mk.injEq] at heq
        obtain ⟨hc1, rfl⟩ := heq
        obtain ⟨_, _, hcc⟩ := hspec.1 _ (mem_filterMap_otherKey.1 hc)
        have hact := hspec.2 c (mem_filterMap_otherKey.1 hc) y h2
          (by rw [hcc]; exact ho)
        exact hne y (mem_filterMap_activeKey.2 hact) rfl
    · intro c b hmem y hy hyo
      obtain ⟨hold, hne_o⟩ := mem_rmKeyed.1 hmem
      refine mem_rmKeyed.2 ⟨hi.other_complete c b hold y hy hyo, ?_⟩
      intro k hk heq
      rw [Prod.mk.injEq] at heq
      obtain ⟨rfl, rfl⟩ := heq
      obtain ⟨hof, hod, hoc⟩ := hi.itemOther_sound c b hold
      obtain ⟨_, _, h3⟩ := hspec.1 _ (mem_filterMap_activeKey.1 hk)
      rcases h3 with ⟨hd, _⟩ | ⟨hd, _⟩ | ⟨hd, _⟩ | ⟨hd, ho, href⟩
      · rw [hod] at hd
        cases hd
      · rw [hod] at hd
        cases hd
      · rw [hod] at hd
        cases hd
      · exact hne_o b.carrierItem (mem_filterMap_otherKey.2 href)
          (by rw [hoc])

theorem mem_selAwaitable {ctx : Ctx} {s : RegState} {x : Nat} {b : Affector} :
    b ∈ selAwaitable ctx s x ↔
      ∃ k, (k, b) ∈ s.affectorItemAwaitable ∧
        awaitableSelectedBy ctx x (k, b) := by
  unfold selAwaitable
  constructor
  · intro h
    rcases Finset.mem_image.1 h with ⟨p, hp, rfl⟩
    rcases Finset.mem_filter.1 hp with ⟨hm, hsel⟩
    exact ⟨p.1, hm, hsel⟩
  · rintro ⟨k, hm, hsel⟩
    exact Finset.mem_image.2 ⟨(k, b), Finset.mem_filter.2 ⟨hm, hsel⟩, rfl⟩

theorem mem_selOthers {ctx : Ctx} {s : RegState} {x : Nat} {b : Affector} :
    b ∈ selOthers ctx s x ↔
      ∃ c, (c, b) ∈ s.affectorItemOther ∧
        x ∈ (ctx.itemData c).others := by
  unfold selOthers
  constructor
  · intro h
    rcases Finset.mem_image.1 h with ⟨p, hp, rfl⟩
    rcases Finset.mem_filter.1 hp with ⟨hm, hsel⟩
    exact ⟨p.1, hm, hsel⟩
  · rintro ⟨c, hm, hsel⟩
    exact Finset.mem_image.2 ⟨(c, b), Finset.mem_filter.2 ⟨hm, hsel⟩, rfl⟩

theorem mem_demotedAffectors {s : RegState} {x : Nat} {b : Affector} :
    b ∈ demotedAffectors s x ↔
      (x, b) ∈ s.affectorItemActive ∧
      (b.modifier.tgtDomain = .ship ∨ b.modifier.tgtDomain = .character ∨
        b.modifier.tgtDomain = .self) := by
  unfold demotedAffectors
  rw [Finset.mem_filter, mem_kget]

/-- `register_affectee` preserves the invariant. -/
theorem inv_register_affectee {ctx : Ctx} {s : RegState} (hi : Inv ctx s)
    (x : Nat) : Inv ctx (register_affectee ctx s x) := by
  unfold register_affectee activateDirectAffectors
  refine ⟨?_, ?_, ?_, ?_,
    hi.affectorDomain_sound, hi.affectorDomainGroup_sound,
    hi.affectorDomainSkillrq_sound, hi.affectorOwnerSkillrq_sound,
    hi.itemOther_sound, ?_, ?_, ?_⟩
  · intro d y hmem
    rcases mem_addKeyed.1 hmem with hold | ⟨k, hk, heq⟩
    · obtain ⟨h1, h2⟩ := hi.affecteeDomain_sound d y hold
      exact ⟨Finset.mem_insert_of_mem h1, h2⟩
    · rw [Prod.mk.injEq] at heq
      obtain ⟨rfl, rfl⟩ := heq
      exact ⟨Finset.mem_insert_self _ _, mem_affecteeDomainKeys.1 hk⟩
  · intro k' y hmem
    rcases mem_addKeyed.1 hmem with hold | ⟨k, hk, heq⟩
    · obtain ⟨h1, h2⟩ := hi.affecteeDomainGroup_sound k' y hold
      exact ⟨Finset.mem_insert_of_mem h1, h2⟩
    · rw [Prod.mk.injEq] at heq
      obtain ⟨rfl, rfl⟩ := heq
      obtain ⟨d, g, hmd, hg, rfl⟩ := mem_affecteeDomainGroupKeys.1 hk
      exact ⟨Finset.mem_insert_self _ _, d, g, rfl, hmd, hg⟩
  · intro k' y hmem
    rcases mem_addKeyed.1 hmem with hold | ⟨k, hk, heq⟩
    · obtain ⟨h1, h2⟩ := hi.affecteeDomainSkillrq_sound k' y hold
      exact ⟨Finset.mem_insert_of_mem h1, h2⟩
    · rw [Prod.mk.injEq] at heq
      obtain ⟨rfl, rfl⟩ := heq
      obtain ⟨d, sk, hmd, hsk, rfl⟩ := mem_affecteeDomainSkillrqKeys.1 hk
      exact ⟨Finset.mem_insert_self _ _, d, sk, rfl, hmd, hsk⟩
  · intro k' y hmem
    rcases mem_addKeyed.1 hmem with hold | ⟨k, hk, heq⟩
    · obtain ⟨h1, h2⟩ := hi.affecteeOwnerSkillrq_sound k' y hold
      exact ⟨Finset.mem_insert_of_mem h1, h2⟩
    · rw [Prod.mk.injEq] at heq
      obtain ⟨rfl, rfl⟩ := heq
      obtain ⟨hmod, sk, hsk, rfl⟩ := mem_affecteeOwnerSkillrqKeys.1 hk
      exact ⟨Finset.mem_insert_self _ _, hmod, sk, rfl, hsk⟩
  · intro c b hmem
    obtain ⟨hold, hP⟩ := Finset.mem_filter.1 hmem
    obtain ⟨h1, h2, h3⟩ := hi.awaitable_sound c b hold
    refine ⟨h1, h2, ?_⟩
    rcases h3 with ⟨hd, hcar⟩ | ⟨hd, hch⟩ | ⟨hd, hsh⟩
    · refine Or.inl ⟨hd, ?_⟩
      intro hin
      rcases Finset.mem_insert.1 hin with heq | hin2
      · exact hP ⟨mem_selAwaitable.2
          ⟨c, hold, Or.inr (Or.inr ⟨hd, h2.trans heq⟩)⟩, h2⟩
      · exact hcar hin2
    · refine Or.inr (Or.inl ⟨hd, ?_⟩)
      intro cc hcc hin
      rcases Finset.mem_insert.1 hin with heq | hin2
      · refine hP ⟨mem_selAwaitable.2
          ⟨c, hold, Or.inr (Or.inl ⟨hd, ?_⟩)⟩, h2⟩
        rw [hcc, heq]
      · exact hch cc hcc hin2
    · refine Or.inr (Or.inr ⟨hd, ?_⟩)
      intro cc hcc hin
      rcases Finset.mem_insert.1 hin with heq | hin2
      · refine hP ⟨mem_selAwaitable.2
          ⟨c, hold, Or.inl ⟨hd, ?_⟩⟩, h2⟩
        rw [hcc, heq]
      · exact hsh cc hcc hin2
  · intro y b hmem
    rcases Finset.mem_union.1 hmem with hm1 | hmo
    · rcases Finset.mem_union.1 hm1 with hold | hmaw
      · obtain ⟨h1, h2, h3⟩ := hi.active_sound y b hold
        refine ⟨h1, Finset.mem_insert_of_mem h2, h3⟩
      · rcases Finset.mem_image.1 hmaw with ⟨b', hb', heq⟩
        rw [Prod.mk.injEq] at heq
        obtain ⟨rfl, rfl⟩ := heq
        rcases mem_selAwaitable.1 hb' with ⟨k, hkm, hsel⟩
        obtain ⟨h1, h2, _⟩ := hi.awaitable_sound k b' hkm
        rcases hsel with ⟨hd, hsh⟩ | ⟨hd, hch⟩ | ⟨hd, hkx⟩
        · exact ⟨h1, Finset.mem_insert_self _ _,
            Or.inr (Or.inr (Or.inl ⟨hd, hsh⟩))⟩
        · exact ⟨h1, Finset.mem_insert_self _ _,
            Or.inr (Or.inl ⟨hd, hch⟩)⟩
        · refine ⟨h1, Finset.mem_insert_self _ _, Or.inl ⟨hd, ?_⟩⟩
          rw [← hkx, h2]
    · rcases Finset.mem_image.1 hmo with ⟨b', hb', heq⟩
      rw [Prod.mk.injEq] at heq
      obtain ⟨rfl, rfl⟩ := heq
      rcases mem_selOthers.1 hb' with ⟨c', hc'm, hxo⟩
      obtain ⟨hf, hd, hcc⟩ := hi.itemOther_sound c' b' hc'm
      refine ⟨hf, Finset.mem_insert_self _ _,
        Or.inr (Or.inr (Or.inr ⟨hd, ?_, ?_⟩))⟩
      · rw [← hcc]
        exact hxo
      · rw [← hcc]
        exact hc'm
  · intro c b hmem y hy hyo
    rcases Finset.mem_insert.1 hy with rfl | hy2
    · exact Finset.mem_union.2 (Or.inr (Finset.mem_image.2
        ⟨b, mem_selOthers.2 ⟨c, hmem, hyo⟩, rfl⟩))
    · exact Finset.mem_union.2 (Or.inl (Finset.mem_union.2
        (Or.inl (hi.other_complete c b hmem y hy2 hyo))))

/-- `unregister_affectee` preserves the invariant. -/
theorem inv_unregister_affectee {ctx : Ctx} {s : RegState} (hi : Inv ctx s)
    (x : Nat) : Inv ctx (unregister_affectee ctx s x) := by
  unfold unregister_affectee deactivateDirectAffectors
  have haffd : ∀ d y, (d, y) ∈
      rmKeyed s.affecteeDomain (affecteeDomainKeys (ctx.itemData x)) x →
      y ∈ s.affectee.erase x ∧ (ctx.itemData y).modifierDomain = some d := by
    intro d y hmem
    obtain ⟨hold, hne⟩ := mem_rmKeyed.1 hmem
    obtain ⟨h1, h2⟩ := hi.affecteeDomain_sound d y hold
    have hyx : y ≠ x := by
      rintro rfl
      exact hne d (mem_affecteeDomainKeys.2 h2) rfl
    exact ⟨Finset.mem_erase.2 ⟨hyx, h1⟩, h2⟩
  have haffg : ∀ k y, (k, y) ∈
      rmKeyed s.affecteeDomainGroup (affecteeDomainGroupKeys (ctx.itemData x))
        x →
      y ∈ s.affectee.erase x ∧ ∃ d g, k = (d, ExtraArg.value g) ∧
        (ctx.itemData y).modifierDomain = some d ∧
        (ctx.itemData y).groupId = some g := by
    intro k y hmem
    obtain ⟨hold, hne⟩ := mem_rmKeyed.1 hmem
    obtain ⟨h1, d, g, hkk, hmd, hg⟩ := hi.affecteeDomainGroup_sound k y hold
    have hyx : y ≠ x := by
      rintro rfl
      exact hne k (mem_affecteeDomainGroupKeys.2 ⟨d, g, hmd, hg, hkk⟩) rfl
    exact ⟨Finset.mem_erase.2 ⟨hyx, h1⟩, d, g, hkk, hmd, hg⟩
  have haffs : ∀ k y, (k, y) ∈
      rmKeyed s.affecteeDomainSkillrq
        (affecteeDomainSkillrqKeys (ctx.itemData x)) x →
      y ∈ s.affectee.erase x ∧ ∃ d sk, k = (d, ExtraArg.value sk) ∧
        (ctx.itemData y).modifierDomain = some d ∧
        sk ∈ (ctx.itemData y).requiredSkills := by
    intro k y hmem
    obtain ⟨hold, hne⟩ := mem_rmKeyed.1 hmem
    obtain ⟨h1, d, sk, hkk, hmd, hsk⟩ :=
      hi.affecteeDomainSkillrq_sound k y hold
    have hyx : y ≠ x := by
      rintro rfl
      exact hne k (mem_affecteeDomainSkillrqKeys.2 ⟨d, sk, hmd, hsk, hkk⟩) rfl
    exact ⟨Finset.mem_erase.2 ⟨hyx, h1⟩, d, sk, hkk, hmd, hsk⟩
  have haffo : ∀ k y, (k, y) ∈
      rmKeyed s.affecteeOwnerSkillrq
        (affecteeOwnerSkillrqKeys (ctx.itemData x)) x →
      y ∈ s.affectee.erase x ∧ (ctx.itemData y).ownerModifiable = true ∧
      ∃ sk, k = ExtraArg.value sk ∧ sk ∈ (ctx.itemData y).requiredSkills := by
    intro k y hmem
    obtain ⟨hold, hne⟩ := mem_rmKeyed.1 hmem
    obtain ⟨h1, hom, sk, hkk, hsk⟩ := hi.affecteeOwnerSkillrq_sound k y hold
    have hyx : y ≠ x := by
      rintro rfl
      exact hne k (mem_affecteeOwnerSkillrqKeys.2 ⟨hom, sk, hsk, hkk⟩) rfl
    exact ⟨Finset.mem_erase.2 ⟨hyx, h1⟩, hom, sk, hkk, hsk⟩
  split
  case isTrue hk =>
    refine ⟨haffd, haffg, haffs, haffo,
      hi.affectorDomain_sound, hi.affectorDomainGroup_sound,
      hi.affectorDomainSkillrq_sound, hi.affectorOwnerSkillrq_sound,
      hi.itemOther_sound, ?_, ?_, ?_⟩
    · intro c b hmem
      obtain ⟨h1, h2, h3⟩ := hi.awaitable_sound c b hmem
      refine ⟨h1, h2, ?_⟩
      rcases h3 with ⟨hd, hcar⟩ | ⟨hd, hch⟩ | ⟨hd, hsh⟩
      · exact Or.inl ⟨hd, fun h => hcar (Finset.mem_of_mem_erase h)⟩
      · exact Or.inr (Or.inl ⟨hd,
          fun cc hcc h => hch cc hcc (Finset.mem_of_mem_erase h)⟩)
      · exact Or.inr (Or.inr ⟨hd,
          fun cc hcc h => hsh cc hcc (Finset.mem_of_mem_erase h)⟩)
    · intro y b hmem
      obtain ⟨h1, h2, h3⟩ := hi.active_sound y b hmem
      have hyx : y ≠ x := by
        rintro rfl
        have : b ∈ kget s.affectorItemActive y := mem_kget.2 hmem
        rw [hk] at this
        exact absurd this (Finset.not_mem_empty b)
      exact ⟨h1, Finset.mem_erase.2 ⟨hyx, h2⟩, h3⟩
    · intro c b hmem y hy hyo
      exact hi.other_complete c b hmem y (Finset.mem_of_mem_erase hy) hyo
  case isFalse hk =>
    refine ⟨haffd, haffg, haffs, haffo,
      hi.affectorDomain_sound, hi.affectorDomainGroup_sound,
      hi.affectorDomainSkillrq_sound, hi.affectorOwnerSkillrq_sound,
      hi.itemOther_sound, ?_, ?_, ?_⟩
    · intro c b hmem
      rcases Finset.mem_union.1 hmem with hold | hdem
      · obtain ⟨h1, h2, h3⟩ := hi.awaitable_sound c b hold
        refine ⟨h1, h2, ?_⟩
        rcases h3 with ⟨hd, hcar⟩ | ⟨hd, hch⟩ | ⟨hd, hsh⟩
        · exact Or.inl ⟨hd, fun h => hcar (Finset.mem_of_mem_erase h)⟩
        · exact Or.inr (Or.inl ⟨hd,
            fun cc hcc h => hch cc hcc (Finset.mem_of_mem_erase h)⟩)
        · exact Or.inr (Or.inr ⟨hd,
            fun cc hcc h => hsh cc hcc (Finset.mem_of_mem_erase h)⟩)
      · rcases Finset.mem_image.1 hdem with ⟨b', hb', heq⟩
        rw [Prod.mk.injEq] at heq
        obtain ⟨rfl, rfl⟩ := heq
        obtain ⟨hact, hdom3⟩ := mem_demotedAffectors.1 hb'
        obtain ⟨h1, h2, h3⟩ := hi.active_sound x b' hact
        refine ⟨h1, rfl, ?_⟩
        rcases hdom3 with hd | hd | hd
        · rcases h3 with ⟨hd2, _⟩ | ⟨hd2, _⟩ | ⟨hd2, hsome⟩ | ⟨hd2, _⟩
          · rw [hd] at hd2
            cases hd2
          · rw [hd] at hd2
            cases hd2
          · refine Or.inr (Or.inr ⟨hd, ?_⟩)
            intro cc hcc h
            rw [hsome] at hcc
            cases hcc
            exact absurd h (Finset.not_mem_erase x s.affectee)
          · rw [hd] at hd2
            cases hd2
        · rcases h3 with ⟨hd2, _⟩ | ⟨hd2, hsome⟩ | ⟨hd2, _⟩ | ⟨hd2, _⟩
          · rw [hd] at hd2
            cases hd2
          · refine Or.inr (Or.inl ⟨hd, ?_⟩)
            intro cc hcc h
            rw [hsome] at hcc
            cases hcc
            exact absurd h (Finset.not_mem_erase x s.affectee)
          · rw [hd] at hd2
            cases hd2
          · rw [hd] at hd2
            cases hd2
        · rcases h3 with ⟨hd2, hcar⟩ | ⟨hd2, _⟩ | ⟨hd2, _⟩ | ⟨hd2, _⟩
          · refine Or.inl ⟨hd, ?_⟩
            rw [← hcar]
            exact Finset.not_mem_erase x s.affectee
          · rw [hd] at hd2
            cases hd2
          · rw [hd] at hd2
            cases hd2
          · rw [hd] at hd2
            cases hd2
    · intro y b hmem
      obtain ⟨hold, hne⟩ := Finset.mem_filter.1 hmem
      obtain ⟨h1, h2, h3⟩ := hi.active_sound y b hold
      exact ⟨h1, Finset.mem_erase.2 ⟨hne, h2⟩, h3⟩
    · intro c b hmem y hy hyo
      obtain ⟨hyx, hy2⟩ := Finset.mem_erase.1 hy
      exact Finset.mem_filter.2
        ⟨hi.other_complete c b hmem y hy2 hyo, hyx⟩

/-- Every reachable register state satisfies the invariant. -/
theorem inv_of_reachable {ctx : Ctx} {s : RegState} (h : Reachable ctx s) :
    Inv ctx s := by
  induction h with
  | empty => exact inv_empty ctx
  | step _ hstep ih =>
    cases hstep with
    | regAffectee x => exact inv_register_affectee ih x
    | unregAffectee x => exact inv_unregister_affectee ih x
    | regAffector a => exact inv_register_affector ih a
    | unregAffector a => exact inv_unregister_affector ih a

theorem ga_of_active {ctx : Ctx} {s : RegState} {x : Nat} {b : Affector}
    (hx : x ∈ s.affectee) (h : (x, b) ∈ s.affectorItemActive) :
    b ∈ get_affectors ctx s x := by
  unfold get_affectors
  rw [if_pos hx]
  exact Finset.mem_union.2 (Or.inl (Finset.mem_union.2
    (Or.inl (mem_kget.2 h))))

theorem ga_of_domain {ctx : Ctx} {s : RegState} {x : Nat} {b : Affector}
    {d : Dom} (hx : x ∈ s.affectee)
    (hd : (ctx.itemData x).modifierDomain = some d)
    (h : (d, b) ∈ s.affectorDomain) : b ∈ get_affectors ctx s x := by
  unfold get_affectors
  rw [if_pos hx]
  refine Finset.mem_union.2 (Or.inl (Finset.mem_union.2 (Or.inr ?_)))
  simp only [hd]
  exact Finset.mem_union.2 (Or.inl (Finset.mem_union.2
    (Or.inl (mem_kget.2 h))))

theorem ga_of_domainGroup {ctx : Ctx} {s : RegState} {x : Nat} {b : Affector}
    {d : Dom} {g : Nat} (hx : x ∈ s.affectee)
    (hd : (ctx.itemData x).modifierDomain = some d)
    (hg : (ctx.itemData x).groupId = some g)
    (h : ((d, ExtraArg.value g), b) ∈ s.affectorDomainGroup) :
    b ∈ get_affectors ctx s x := by
  unfold get_affectors
  rw [if_pos hx]
  refine Finset.mem_union.2 (Or.inl (Finset.mem_union.2 (Or.inr ?_)))
  simp only [hd, hg]
  refine Finset.mem_union.2 (Or.inl (Finset.mem_union.2 (Or.inr ?_)))
  rw [show extraOfOpt (some g) = ExtraArg.value g from rfl]
  exact mem_kget.2 h

theorem ga_of_domainSkillrq {ctx : Ctx} {s : RegState} {x : Nat}
    {b : Affector} {d : Dom} {sk : Nat} (hx : x ∈ s.affectee)
    (hd : (ctx.itemData x).modifierDomain = some d)
    (hsk : sk ∈ (ctx.itemData x).requiredSkills)
    (h : ((d, ExtraArg.value sk), b) ∈ s.affectorDomainSkillrq) :
    b ∈ get_affectors ctx s x := by
  unfold get_affectors
  rw [if_pos hx]
  refine Finset.mem_union.2 (Or.inl (Finset.mem_union.2 (Or.inr ?_)))
  simp only [hd]
  refine Finset.mem_union.2 (Or.inr ?_)
  rw [mem_foldl_union]
  exact Or.inr ⟨sk, hsk, mem_kget.2 h⟩

theorem ga_of_ownerSkillrq {ctx : Ctx} {s : RegState} {x : Nat}
    {b : Affector} {sk : Nat} (hx : x ∈ s.affectee)
    (hom : (ctx.itemData x).ownerModifiable = true)
    (hsk : sk ∈ (ctx.itemData x).requiredSkills)
    (h : (ExtraArg.value sk, b) ∈ s.affectorOwnerSkillrq) :
    b ∈ get_affectors ctx s x := by
  unfold get_affectors
  rw [if_pos hx]
  refine Finset.mem_union.2 (Or.inr ?_)
  simp only [hom, if_true]
  rw [mem_foldl_union]
  exact Or.inr ⟨sk, hsk, mem_kget.2 h⟩

/-- C1: for every reachable fit state and every affector registered with
the register (present in any affector index and not since removed), every
item returned by `get_affectees` is a member of the register's affectee
set, and the affector is among `get_affectors` of that item. -/
theorem c1_get_affectees_sound (ctx : Ctx) (s : RegState)
    (hreach : Reachable ctx s) (a : Affector)
    (hreg : registeredAffector s a) :
    ∀ x ∈ (get_affectees ctx s a).1,
      x ∈ s.affectee ∧ a ∈ get_affectors ctx s x := by
  have hi := inv_of_reachable hreach
  intro x hx
  rcases hreg with ⟨k, hk⟩ | ⟨k, hk⟩ | ⟨k, hk⟩ | ⟨k, hk⟩ | ⟨k, hk⟩ |
    ⟨k, hk⟩ | ⟨k, hk⟩
  · -- stored in __affector_item_other
    obtain ⟨hf, hd, rfl⟩ := hi.itemOther_sound k a hk
    simp only [get_affectees, getAffecteesRaw, hf, hd, getRegisteredAffectees,
      Finset.mem_filter] at hx
    obtain ⟨hxa, hxo⟩ := hx
    exact ⟨hxa, ga_of_active hxa
      (hi.other_complete a.carrierItem a hk x hxa hxo)⟩
  · -- stored in __affector_item_awaitable
    obtain ⟨hf, rfl, hdisj⟩ := hi.awaitable_sound k a hk
    rcases hdisj with ⟨hd, hcar⟩ | ⟨hd, hch⟩ | ⟨hd, hsh⟩
    · simp only [get_affectees, getAffecteesRaw, hf, hd,
        getRegisteredAffectees, Finset.mem_filter] at hx
      obtain ⟨hxa, hxl⟩ := hx
      rw [List.mem_singleton] at hxl
      subst hxl
      exact absurd hxa hcar
    · cases hcc : ctx.currentChar with
      | none =>
        simp only [get_affectees, getAffecteesRaw, hf, hd, hcc] at hx
        exact absurd hx (Finset.not_mem_empty x)
      | some c =>
        simp only [get_affectees, getAffecteesRaw, hf, hd, hcc,
          getRegisteredAffectees, Finset.mem_filter] at hx
        obtain ⟨hxa, hxl⟩ := hx
        rw [List.mem_singleton] at hxl
        subst hxl
        exact absurd hxa (hch x hcc)
    · cases hcs : ctx.currentShip with
      | none =>
        simp only [get_affectees, getAffecteesRaw, hf, hd, hcs] at hx
        exact absurd hx (Finset.not_mem_empty x)
      | some c =>
        simp only [get_affectees, getAffecteesRaw, hf, hd, hcs,
          getRegisteredAffectees, Finset.mem_filter] at hx
        obtain ⟨hxa, hxl⟩ := hx
        rw [List.mem_singleton] at hxl
        subst hxl
        exact absurd hxa (hsh x hcs)
  · -- stored in __affector_item_active
    obtain ⟨hf, hka, hdisj⟩ := hi.active_sound k a hk
    rcases hdisj with ⟨hd, hkcar⟩ | ⟨hd, hsome⟩ | ⟨hd, hsome⟩ |
      ⟨hd, hko, hio⟩
    · simp only [get_affectees, getAffecteesRaw, hf, hd,
        getRegisteredAffectees, Finset.mem_filter] at hx
      obtain ⟨hxa, hxl⟩ := hx
      rw [List.mem_singleton] at hxl
      subst hxl
      rw [hkcar] at hk
      exact ⟨hxa, ga_of_active hxa hk⟩
    · cases hcc : ctx.currentChar with
      | none =>
        simp only [get_affectees, getAffecteesRaw, hf, hd, hcc] at hx
        exact absurd hx (Finset.not_mem_empty x)
      | some c =>
        simp only [get_affectees, getAffecteesRaw, hf, hd, hcc,
          getRegisteredAffectees, Finset.mem_filter] at hx
        obtain ⟨hxa, hxl⟩ := hx
        rw [List.mem_singleton] at hxl
        subst hxl
        rw [hsome] at hcc
        cases hcc
        exact ⟨hxa, ga_of_active hxa hk⟩
    · cases hcs : ctx.currentShip with
      | none =>
        simp only [get_affectees, getAffecteesRaw, hf, hd, hcs] at hx
        exact absurd hx (Finset.not_mem_empty x)
      | some c =>
        simp only [get_affectees, getAffecteesRaw, hf, hd, hcs,
          getRegisteredAffectees, Finset.mem_filter] at hx
        obtain ⟨hxa, hxl⟩ := hx
        rw [List.mem_singleton] at hxl
        subst hxl
        rw [hsome] at hcs
        cases hcs
        exact ⟨hxa, ga_of_active hxa hk⟩
    · simp only [get_affectees, getAffecteesRaw, hf, hd,
        getRegisteredAffectees, Finset.mem_filter] at hx
      obtain ⟨hxa, hxo⟩ := hx
      exact ⟨hxa, ga_of_active hxa
        (hi.other_complete a.carrierItem a hio x hxa hxo)⟩
  · -- stored in __affector_domain
    obtain ⟨hf, hctx⟩ := hi.affectorDomain_sound k a hk
    simp only [get_affectees, getAffecteesRaw, hf, hctx, Except.map] at hx
    have hmem := mem_kget.1 hx
    obtain ⟨hxa, hmd⟩ := hi.affecteeDomain_sound k x hmem
    exact ⟨hxa, ga_of_domain hxa hmd hk⟩
  · -- stored in __affector_domain_group
    obtain ⟨hf, d, hctx, rfl⟩ := hi.affectorDomainGroup_sound k a hk
    simp only [get_affectees, getAffecteesRaw, hf, hctx, Except.map] at hx
    have hmem := mem_kget.1 hx
    obtain ⟨hxa, d', g, hkeq, hmd, hg⟩ :=
      hi.affecteeDomainGroup_sound _ x hmem
    rw [Prod.mk.injEq] at hkeq
    obtain ⟨rfl, hextra⟩ := hkeq
    rw [hextra] at hk
    exact ⟨hxa, ga_of_domainGroup hxa hmd hg hk⟩
  · -- stored in __affector_domain_skillrq
    obtain ⟨hf, d, hctx, rfl⟩ := hi.affectorDomainSkillrq_sound k a hk
    simp only [get_affectees, getAffecteesRaw, hf, hctx, Except.map] at hx
    have hmem := mem_kget.1 hx
    obtain ⟨hxa, d', sk, hkeq, hmd, hsk⟩ :=
      hi.affecteeDomainSkillrq_sound _ x hmem
    rw [Prod.mk.injEq] at hkeq
    obtain ⟨rfl, hextra⟩ := hkeq
    rw [hextra] at hk
    exact ⟨hxa, ga_of_domainSkillrq hxa hmd hsk hk⟩
  · -- stored in __affector_owner_skillrq
    obtain ⟨hf, rfl⟩ := hi.affectorOwnerSkillrq_sound k a hk
    simp only [get_affectees, getAffecteesRaw, hf] at hx
    have hmem := mem_kget.1 hx
    obtain ⟨hxa, hom, sk, hkeq, hsk⟩ :=
      hi.affecteeOwnerSkillrq_sound _ x hmem
    rw [hkeq] at hk
    exact ⟨hxa, ga_of_ownerSkillrq hxa hom hsk hk⟩

/-- C9: `get_affectors` returns the empty set for every item outside the
register's affectee set, regardless of what the direct and broadcast
affector indices contain. -/
theorem c9_get_affectors_unregistered (ctx : Ctx) (s : RegState) (x : Nat)
    (h : x ∉ s.affectee) : get_affectors ctx s x = ∅ := by
  unfold get_affectors
  rw [if_neg h]

/-- C9 witness at a concrete never-registered item. -/
theorem c9_witness : get_affectors wCtx emptyState 42 = ∅ :=
  c9_get_affectors_unregistered wCtx emptyState 42 (by decide)

/-- C3: unregistering an affectee deletes every direct affector keyed on it
from the active storage; each removed affector whose domain is self,
character or ship is demoted into the awaitable storage under its carrier
item; a removed `other`-domain affector is re-added nowhere and the
permanent `other` storage is left unchanged. -/
theorem c3_unregister_affectee_deactivation (ctx : Ctx) (s : RegState)
    (x : Nat) :
    kget (unregister_affectee ctx s x).affectorItemActive x = ∅ ∧
    (unregister_affectee ctx s x).affectorItemOther = s.affectorItemOther ∧
    ∀ a ∈ kget s.affectorItemActive x,
      ((a.modifier.tgtDomain = .self ∨ a.modifier.tgtDomain = .character ∨
        a.modifier.tgtDomain = .ship) →
        a ∈ kget (unregister_affectee ctx s x).affectorItemAwaitable
          a.carrierItem) ∧
      (a.modifier.tgtDomain = .other →
        ∀ c,
          (a ∈ kget (unregister_affectee ctx s x).affectorItemAwaitable c ↔
           a ∈ kget s.affectorItemAwaitable c)) := by
  unfold unregister_affectee deactivateDirectAffectors
  split
  next hk =>
    refine ⟨hk, rfl, ?_⟩
    intro a ha
    rw [hk] at ha
    exact absurd ha (Finset.not_mem_empty a)
  next hk =>
    refine ⟨?_, rfl, ?_⟩
    · rw [Finset.eq_empty_iff_forall_not_mem]
      intro b hb
      obtain ⟨_, hne⟩ := Finset.mem_filter.1 (mem_kget.1 hb)
      exact hne rfl
    · intro a ha
      constructor
      · intro hd3
        refine mem_kget.2 (Finset.mem_union.2 (Or.inr (Finset.mem_image.2
          ⟨a, mem_demotedAffectors.2 ⟨mem_kget.1 ha, ?_⟩, rfl⟩)))
        rcases hd3 with h | h | h
        · exact Or.inr (Or.inr h)
        · exact Or.inr (Or.inl h)
        · exact Or.inl h
      · intro hdo c
        rw [mem_kget, mem_kget]
        constructor
        · intro hmem
          rcases Finset.mem_union.1 hmem with hold | hdem
          · exact hold
          · rcases Finset.mem_image.1 hdem with ⟨b', hb', heq⟩
            rw [Prod.mk.injEq] at heq
            obtain ⟨rfl, rfl⟩ := heq
            obtain ⟨_, hd3⟩ := mem_demotedAffectors.1 hb'
            rcases hd3 with h | h | h <;> rw [hdo] at h <;> cases h
        · intro hmem
          exact Finset.mem_union.2 (Or.inl hmem)

/-- C3 witness: a concrete ship-domain affector active on item 5 is removed
from the active storage and demoted to the awaitable storage under its
carrier (item 6). -/
theorem c3_witness :
    c3Affector ∈ kget c3State.affectorItemActive 5 ∧
    kget (unregister_affectee wCtx c3State 5).affectorItemActive 5 = ∅ ∧
    c3Affector ∈
      kget (unregister_affectee wCtx c3State 5).affectorItemAwaitable 6 :=
  ⟨by decide, (c3_unregister_affectee_deactivation wCtx c3State 5).1,
    ((c3_unregister_affectee_deactivation wCtx c3State 5).2.2
      c3Affector (by decide)).1 (Or.inr (Or.inr rfl))⟩

/-- C2: when the storage lookup for an affector raises (unknown target
filter, or target domain unexpected for its filter), `register_affector`
logs exactly one warning carrying the carrier item's type id and leaves
every index untouched — all-or-nothing — and `get_affectees` likewise
returns the empty iterable with the same single warning, so calculation
proceeds as if the affector did not exist. -/
theorem c2_register_affector_error (ctx : Ctx) (s : RegState) (a : Affector)
    (e : RegError) (h : getAffectorStorages ctx s a = .error e) :
    register_affector ctx s a = (s, [mkLog ctx a e]) ∧
    get_affectees ctx s a = (∅, [mkLog ctx a e]) := by
  constructor
  · unfold register_affector
    rw [h]
  · unfold get_affectees
    rw [storages_error_affectees h]

/-- C2 witness: an affector with unknown target filter 99 is dropped with
one warning and the register is unchanged. -/
theorem c2_witness :
    getAffectorStorages wCtx emptyState c2Affector =
      .error (.unknownTgtFilter (.invalid 99)) ∧
    register_affector wCtx emptyState c2Affector =
      (emptyState,
        [mkLog wCtx c2Affector (.unknownTgtFilter (.invalid 99))]) :=
  ⟨rfl, (c2_register_affector_error wCtx emptyState c2Affector _
    rfl).1⟩

/-- C10: a broadcast filter (domain, domain_group or domain_skillrq) with
target domain `other` is treated as an unexpected domain even though
`other` is valid for the `item` filter: registration logs the
malformed-modifier warning and stores the affector in no index, and
`get_affectees` returns the empty iterable with the same warning. -/
theorem c10_other_broadcast_rejected (ctx : Ctx) (s : RegState)
    (a : Affector)
    (hf : a.modifier.tgtFilter = .domain ∨
      a.modifier.tgtFilter = .domainGroup ∨
      a.modifier.tgtFilter = .domainSkillrq)
    (hd : a.modifier.tgtDomain = .other) :
    register_affector ctx s a =
      (s, [mkLog ctx a (.unexpectedDomain .other)]) ∧
    get_affectees ctx s a =
      (∅, [mkLog ctx a (.unexpectedDomain .other)]) := by
  have hctx : contextizeTgtFilterDomain ctx a =
      .error (.unexpectedDomain .other) := by
    unfold contextizeTgtFilterDomain
    rw [hd]
  have hst : getAffectorStorages ctx s a =
      .error (.unexpectedDomain .other) := by
    unfold getAffectorStorages
    rcases hf with hf | hf | hf <;> rw [hf, hctx] <;> rfl
  constructor
  · unfold register_affector
    rw [hst]
  · unfold get_affectees
    rw [storages_error_affectees hst]

/-- C10 witness: a concrete `domain_group` affector with domain `other` is
rejected with one warning and nothing is stored. -/
theorem c10_witness :
    register_affector wCtx emptyState c10Affector =
      (emptyState, [mkLog wCtx c10Affector (.unexpectedDomain .other)]) :=
  (c10_other_broadcast_rejected wCtx emptyState c10Affector
    (Or.inr (Or.inl rfl)) rfl).1

/-- C5 counterexample: the claim extends self-domain contextization to the
`owner_skillrq` filter, but the register never consults the target domain
for that filter.  A concrete `owner_skillrq` affector with domain `self`
whose carrier is neither the current ship nor the current character is
registered without any warning and lands in the owner-skill index — the
claim predicts a logged unexpected-domain error and no index entry. -/
theorem c5_counterexample :
    (register_affector wCtx emptyState c5Affector).2 = [] ∧
    (ExtraArg.value 9, c5Affector) ∈
      (register_affector wCtx emptyState c5Affector).1.affectorOwnerSkillrq
      := by
  decide

/-- C5 (amended): for the filtered broadcast forms `domain`, `domain_group`
and `domain_skillrq`, a `self` target domain is resolved to `ship` when
the carrier item is the fit's current ship, else to `character` when it is
the current character, and otherwise registration raises the
unexpected-domain error, logs it against the carrier's type id and stores
the affector nowhere.  (`owner_skillrq` ignores the target domain
entirely; see the counterexample.) -/
theorem c5_self_domain_contextized (ctx : Ctx) (s : RegState) (a : Affector)
    (hf : a.modifier.tgtFilter = .domain ∨
      a.modifier.tgtFilter = .domainGroup ∨
      a.modifier.tgtFilter = .domainSkillrq)
    (hd : a.modifier.tgtDomain = .self) :
    (ctx.currentShip = some a.carrierItem →
      contextizeTgtFilterDomain ctx a = .ok .ship ∧
      (register_affector ctx s a).2 = []) ∧
    (ctx.currentShip ≠ some a.carrierItem →
      ctx.currentChar = some a.carrierItem →
      contextizeTgtFilterDomain ctx a = .ok .character ∧
      (register_affector ctx s a).2 = []) ∧
    (ctx.currentShip ≠ some a.carrierItem →
      ctx.currentChar ≠ some a.carrierItem →
      register_affector ctx s a =
        (s, [mkLog ctx a (.unexpectedDomain .self)])) := by
  refine ⟨?_, ?_, ?_⟩
  · intro hsh
    have hctx : contextizeTgtFilterDomain ctx a = .ok .ship := by
      unfold contextizeTgtFilterDomain
      rw [hd]
      simp [hsh]
    refine ⟨hctx, ?_⟩
    unfold register_affector
    rcases hf with hf | hf | hf <;>
      (unfold getAffectorStorages; rw [hf, hctx]) <;> rfl
  · intro hsh hch
    have hctx : contextizeTgtFilterDomain ctx a = .ok .character := by
      unfold contextizeTgtFilterDomain
      rw [hd]
      simp [hsh, hch]
    refine ⟨hctx, ?_⟩
    unfold register_affector
    rcases hf with hf | hf | hf <;>
      (unfold getAffectorStorages; rw [hf, hctx]) <;> rfl
  · intro hsh hch
    have hctx : contextizeTgtFilterDomain ctx a =
        .error (.unexpectedDomain .self) := by
      unfold contextizeTgtFilterDomain
      rw [hd]
      simp [hsh, hch]
    unfold register_affector
    rcases hf with hf | hf | hf <;>
      (unfold getAffectorStorages; rw [hf, hctx]) <;> rfl

/-- C5 witness: the `domain`-filtered self affector carried by the current
ship resolves to `ship` and registers without a warning. -/
theorem c5_witness :
    contextizeTgtFilterDomain wCtx c5ShipAffector = .ok .ship ∧
    (register_affector wCtx emptyState c5ShipAffector).2 = [] :=
  (c5_self_domain_contextized wCtx emptyState c5ShipAffector
    (Or.inl rfl) rfl).1 rfl

/-- Inserting a value under a list of keys and then removing it again is
the identity when the value was stored nowhere to begin with. -/
theorem rm_add_keyed_cancel {κ α : Type} [DecidableEq κ] [DecidableEq α]
    {m : Finset (κ × α)} {ks : List κ} {v : α}
    (h : ∀ k, (k, v) ∉ m) : rmKeyed (addKeyed m ks v) ks v = m := by
  ext p
  rw [mem_rmKeyed, mem_addKeyed]
  constructor
  · rintro ⟨hm | ⟨k, hk, rfl⟩, hall⟩
    · exact hm
    · exact absurd rfl (hall k hk)
  · intro hm
    refine ⟨Or.inl hm, ?_⟩
    rintro k hk rfl
    exact h k hm

/-- Two register states with equal fields are equal. -/
theorem regStateExt {s t : RegState}
    (h1 : s.affectee = t.affectee)
    (h2 : s.affecteeDomain = t.affecteeDomain)
    (h3 : s.affecteeDomainGroup = t.affecteeDomainGroup)
    (h4 : s.affecteeDomainSkillrq = t.affecteeDomainSkillrq)
    (h5 : s.affecteeOwnerSkillrq = t.affecteeOwnerSkillrq)
    (h6 : s.affectorItemOther = t.affectorItemOther)
    (h7 : s.affectorItemAwaitable = t.affectorItemAwaitable)
    (h8 : s.affectorItemActive = t.affectorItemActive)
    (h9 : s.affectorDomain = t.affectorDomain)
    (h10 : s.affectorDomainGroup = t.affectorDomainGroup)
    (h11 : s.affectorDomainSkillrq = t.affectorDomainSkillrq)
    (h12 : s.affectorOwnerSkillrq = t.affectorOwnerSkillrq) : s = t := by
  cases s
  cases t
  simp only [RegState.mk.injEq]
  exact ⟨h1, h2, h3, h4, h5, h6, h7, h8, h9, h10, h11, h12⟩

/-- C4: registering a not-yet-registered item and immediately unregistering
it returns every index of the register — the affectee set, all four
affectee maps and all seven affector maps — to exactly the state it had
before, for every reachable register state. -/
theorem c4_register_unregister_roundtrip (ctx : Ctx) (s : RegState)
    (hreach : Reachable ctx s) (x : Nat) (hx : x ∉ s.affectee) :
    unregister_affectee ctx (register_affectee ctx s x) x = s := by
  have hi := inv_of_reachable hreach
  have hnoact : kget s.affectorItemActive x = ∅ := by
    rw [Finset.eq_empty_iff_forall_not_mem]
    intro b hb
    exact hx (hi.active_sound x b (mem_kget.1 hb)).2.1
  have hnd : ∀ k, (k, x) ∉ s.affecteeDomain :=
    fun k hk => hx (hi.affecteeDomain_sound k x hk).1
  have hng : ∀ k, (k, x) ∉ s.affecteeDomainGroup :=
    fun k hk => hx (hi.affecteeDomainGroup_sound k x hk).1
  have hns : ∀ k, (k, x) ∉ s.affecteeDomainSkillrq :=
    fun k hk => hx (hi.affecteeDomainSkillrq_sound k x hk).1
  have hno : ∀ k, (k, x) ∉ s.affecteeOwnerSkillrq :=
    fun k hk => hx (hi.affecteeOwnerSkillrq_sound k x hk).1
  have h_act : (register_affectee ctx s x).affectorItemActive =
      (s.affectorItemActive ∪
        (selAwaitable ctx s x).image (fun b => (x, b))) ∪
        (selOthers ctx s x).image (fun b => (x, b)) := rfl
  have hkg : kget (register_affectee ctx s x).affectorItemActive x =
      selAwaitable ctx s x ∪ selOthers ctx s x := by
    rw [h_act]
    ext b
    rw [mem_kget]
    constructor
    · intro hmem
      rcases Finset.mem_union.1 hmem with hm1 | hm2
      · rcases Finset.mem_union.1 hm1 with hold | him
        · exact absurd (mem_kget.2 hold)
            (by rw [hnoact]; exact Finset.not_mem_empty b)
        · rcases Finset.mem_image.1 him with ⟨b', hb', heq⟩
          rw [Prod.mk.injEq] at heq
          obtain ⟨_, rfl⟩ := heq
          exact Finset.mem_union.2 (Or.inl hb')
      · rcases Finset.mem_image.1 hm2 with ⟨b', hb', heq⟩
        rw [Prod.mk.injEq] at heq
        obtain ⟨_, rfl⟩ := heq
        exact Finset.mem_union.2 (Or.inr hb')
    · intro hmem
      rcases Finset.mem_union.1 hmem with hA | hO
      · exact Finset.mem_union.2 (Or.inl (Finset.mem_union.2 (Or.inr
          (Finset.mem_image.2 ⟨b, hA, rfl⟩))))
      · exact Finset.mem_union.2 (Or.inr (Finset.mem_image.2 ⟨b, hO, rfl⟩))
  have hdem : demotedAffectors (register_affectee ctx s x) x =
      selAwaitable ctx s x := by
    unfold demotedAffectors
    rw [hkg]
    ext b
    rw [Finset.mem_filter, Finset.mem_union]
    constructor
    · rintro ⟨hA | hO, hd3⟩
      · exact hA
      · rcases mem_selOthers.1 hO with ⟨c, hc, _⟩
        have hdom := (hi.itemOther_sound c b hc).2.1
        rcases hd3 with h | h | h <;> rw [hdom] at h <;> cases h
    · intro hA
      refine ⟨Or.inl hA, ?_⟩
      rcases mem_selAwaitable.1 hA with ⟨k, hk, hsel2⟩
      rcases hsel2 with ⟨hd, _⟩ | ⟨hd, _⟩ | ⟨hd, _⟩
      · exact Or.inl hd
      · exact Or.inr (Or.inl hd)
      · exact Or.inr (Or.inr hd)
  unfold unregister_affectee deactivateDirectAffectors
  split
  next hsel =>
    replace hsel :
        kget (register_affectee ctx s x).affectorItemActive x = ∅ := hsel
    rw [hkg] at hsel
    have hA : selAwaitable ctx s x = ∅ := by
      rw [Finset.eq_empty_iff_forall_not_mem]
      intro b hb
      exact Finset.not_mem_empty b
        (hsel ▸ Finset.mem_union.2 (Or.inl hb))
    have hO : selOthers ctx s x = ∅ := by
      rw [Finset.eq_empty_iff_forall_not_mem]
      intro b hb
      exact Finset.not_mem_empty b
        (hsel ▸ Finset.mem_union.2 (Or.inr hb))
    refine regStateExt ?_ ?_ ?_ ?_ ?_ rfl ?_ ?_ rfl rfl rfl rfl
    · exact Finset.erase_insert hx
    · exact rm_add_keyed_cancel hnd
    · exact rm_add_keyed_cancel hng
    · exact rm_add_keyed_cancel hns
    · exact rm_add_keyed_cancel hno
    · show s.affectorItemAwaitable.filter
        (fun p => ¬(p.2 ∈ selAwaitable ctx s x ∧ p.1 = p.2.carrierItem)) =
        s.affectorItemAwaitable
      refine Finset.filter_true_of_mem ?_
      intro p hp
      rintro ⟨h1, _⟩
      rw [hA] at h1
      exact Finset.not_mem_empty _ h1
    · show (s.affectorItemActive ∪
          (selAwaitable ctx s x).image (fun b => (x, b))) ∪
          (selOthers ctx s x).image (fun b => (x, b)) =
        s.affectorItemActive
      rw [hA, hO]
      simp
  next hsel =>
    refine regStateExt ?_ ?_ ?_ ?_ ?_ rfl ?_ ?_ rfl rfl rfl rfl
    · exact Finset.erase_insert hx
    · exact rm_add_keyed_cancel hnd
    · exact rm_add_keyed_cancel hng
    · exact rm_add_keyed_cancel hns
    · exact rm_add_keyed_cancel hno
    · show s.affectorItemAwaitable.filter
        (fun p => ¬(p.2 ∈ selAwaitable ctx s x ∧ p.1 = p.2.carrierItem)) ∪
        (demotedAffectors (register_affectee ctx s x) x).image
          (fun b => (b.carrierItem, b)) =
        s.affectorItemAwaitable
      rw [hdem]
      ext p
      constructor
      · intro hp
        rcases Finset.mem_union.1 hp with hf | him
        · exact (Finset.mem_filter.1 hf).1
        · rcases Finset.mem_image.1 him with ⟨b, hb, heq⟩
          rcases mem_selAwaitable.1 hb with ⟨k, hk, _⟩
          have hkc := (hi.awaitable_sound k b hk).2.1
          rw [← heq, ← hkc]
          exact hk
      · intro hp
        by_cases hc : p.2 ∈ selAwaitable ctx s x ∧ p.1 = p.2.carrierItem
        · refine Finset.mem_union.2 (Or.inr
            (Finset.mem_image.2 ⟨p.2, hc.1, ?_⟩))
          rw [← hc.2]
        · exact Finset.mem_union.2 (Or.inl (Finset.mem_filter.2 ⟨hp, hc⟩))
    · show ((s.affectorItemActive ∪
          (selAwaitable ctx s x).image (fun b => (x, b))) ∪
          (selOthers ctx s x).image (fun b => (x, b))).filter
            (fun p => p.1 ≠ x) =
        s.affectorItemActive
      ext p
      constructor
      · intro hp
        obtain ⟨hm, hne⟩ := Finset.mem_filter.1 hp
        rcases Finset.mem_union.1 hm with hm1 | hm2
        · rcases Finset.mem_union.1 hm1 with hold | him
          · exact hold
          · rcases Finset.mem_image.1 him with ⟨b, _, heq⟩
            rw [← heq] at hne
            exact absurd rfl hne
        · rcases Finset.mem_image.1 hm2 with ⟨b, _, heq⟩
          rw [← heq] at hne
          exact absurd rfl hne
      · intro hp
        refine Finset.mem_filter.2 ⟨Finset.mem_union.2 (Or.inl
          (Finset.mem_union.2 (Or.inl hp))), ?_⟩
        intro hpx
        have hmem : p.2 ∈ kget s.affectorItemActive x := by
          refine mem_kget.2 ?_
          rw [← hpx, Prod.mk.eta]
          exact hp
        rw [hnoact] at hmem
        exact Finset.not_mem_empty _ hmem

/-- C1 witness: at a concrete reachable state with the ship registered and
a direct ship-targeting affector registered, item 1 is returned by
`get_affectees` and the affector is among its `get_affectors`. -/
theorem c1_witness :
    (1 : Nat) ∈ (get_affectees wCtx c1State c1Affector).1 ∧
    (1 : Nat) ∈ c1State.affectee ∧
    c1Affector ∈ get_affectors wCtx c1State 1 :=
  have hr : Reachable wCtx c1State :=
    Reachable.step (Reachable.step Reachable.empty
      (Step.regAffectee emptyState 1))
      (Step.regAffector (register_affectee wCtx emptyState 1) c1Affector)
  ⟨by decide, c1_get_affectees_sound wCtx c1State hr c1Affector
    (Or.inr (Or.inr (Or.inl ⟨1, by decide⟩))) 1 (by decide)⟩

/-- C4 witness: adding then removing item 0 at the empty register is the
identity. -/
theorem c4_witness :
    (0 : Nat) ∉ emptyState.affectee ∧
    unregister_affectee wCtx (register_affectee wCtx emptyState 0) 0 =
      emptyState :=
  ⟨by decide, c4_register_unregister_roundtrip wCtx emptyState
    Reachable.empty 0 (by decide)⟩

/-- C6: for a ship with base armor resonances (0.5, 0.65, 0.75, 0.9) and a
single active RAH with base resonances (0.85, 0.85, 0.85, 0.85), shift 6
and nonzero cycle time, the simulation converges to RAH resonances
(1.0, 0.925, 0.82, 0.655) exactly, with no warning, and the ship's
resonance attributes are within 0.0005 of (0.500, 0.601, 0.615, 0.589),
i.e. they read those values to 3 decimal places. -/
theorem c6_rah_single_module :
    c6Result.1.map Q.toRat = [1, 0.925, 0.82, 0.655] ∧
    c6Result.2 = [] ∧
    |c6Ship.getD 0 0 - 0.5| ≤ 1 / 2000 ∧
    |c6Ship.getD 1 0 - 0.601| ≤ 1 / 2000 ∧
    |c6Ship.getD 2 0 - 0.615| ≤ 1 / 2000 ∧
    |c6Ship.getD 3 0 - 0.589| ≤ 1 / 2000 := by
  have h1 : c6Result = ([⟨1, 1⟩, ⟨37, 40⟩, ⟨41, 50⟩, ⟨131, 200⟩], []) := by
    decide
  have h2 : shipApply c6ShipBase c6Result.1 =
      [⟨1, 2⟩, ⟨481, 800⟩, ⟨123, 200⟩, ⟨1179, 2000⟩] := by
    decide
  refine ⟨?_, ?_, ?_, ?_, ?_, ?_⟩
  · rw [h1]
    norm_num [Q.toRat]
  · rw [h1]
  · simp only [c6Ship, h2]
    norm_num [Q.toRat, abs_le]
  · simp only [c6Ship, h2]
    norm_num [Q.toRat, abs_le]
  · simp only [c6Ship, h2]
    norm_num [Q.toRat, abs_le]
  · simp only [c6Ship, h2]
    norm_num [Q.toRat, abs_le]

/-- C7: whenever the RAH simulation raises, the wrapper logs exactly the
one fixed warning and keeps the RAH's unsimulated resonances, so the
ship's resonances are the product of its base resonances with the
unsimulated multipliers. -/
theorem c7_rah_exception (base prof r0 : List Q) (shift cycleTime : Q)
    (h : simulateRah base prof r0 shift cycleTime = .error ()) :
    applyRahSim base prof r0 shift cycleTime = (r0, [rahWarning]) ∧
    shipApply base (applyRahSim base prof r0 shift cycleTime).1 =
      shipApply base r0 := by
  unfold applyRahSim
  rw [h]
  exact ⟨rfl, rfl⟩

/-- C7 witness: the C6 scenario with cycle time 0 raises, keeps the RAH at
(0.85, 0.85, 0.85, 0.85), and the ship reads base times 0.85, i.e.
(0.425, 0.5525, 0.6375, 0.765). -/
theorem c7_witness :
    simulateRah c6ShipBase c6Profile c6RahBase c6Shift ⟨0, 1⟩ =
      .error () ∧
    applyRahSim c6ShipBase c6Profile c6RahBase c6Shift ⟨0, 1⟩ =
      (c6RahBase, [rahWarning]) ∧
    (shipApply c6ShipBase c6RahBase).map Q.toRat =
      [0.425, 0.5525, 0.6375, 0.765] := by
  refine ⟨rfl,
    (c7_rah_exception c6ShipBase c6Profile c6RahBase c6Shift ⟨0, 1⟩
      rfl).1, ?_⟩
  have h : shipApply c6ShipBase c6RahBase =
      [⟨17, 40⟩, ⟨221, 400⟩, ⟨51, 80⟩, ⟨153, 200⟩] := by decide
  rw [h]
  norm_num [Q.toRat]

/-- C8: the modifiers a built effect emits carry exactly the minimum
activation state and context determined by the effect category —
passive/online/system at offline/online/offline in local context, active
at active in local context, target at active in projected context,
overload at overload in local context — while the area and dungeon
categories yield build status `error` and zero modifiers. -/
theorem c8_effect_category_states (protos : List Nat) :
    buildEffect .area protos = (.error, []) ∧
    buildEffect .dungeon protos = (.error, []) ∧
    ((buildEffect .passive protos).1 = .okFull ∧
      ∀ i ∈ (buildEffect .passive protos).2,
        i.state = .offline ∧ i.context = .localCtx) ∧
    ((buildEffect .online protos).1 = .okFull ∧
      ∀ i ∈ (buildEffect .online protos).2,
        i.state = .online ∧ i.context = .localCtx) ∧
    ((buildEffect .system protos).1 = .okFull ∧
      ∀ i ∈ (buildEffect .system protos).2,
        i.state = .offline ∧ i.context = .localCtx) ∧
    ((buildEffect .active protos).1 = .okFull ∧
      ∀ i ∈ (buildEffect .active protos).2,
        i.state = .active ∧ i.context = .localCtx) ∧
    ((buildEffect .target protos).1 = .okFull ∧
      ∀ i ∈ (buildEffect .target protos).2,
        i.state = .active ∧ i.context = .projected) ∧
    ((buildEffect .overload protos).1 = .okFull ∧
      ∀ i ∈ (buildEffect .overload protos).2,
        i.state = .overload ∧ i.context = .localCtx) := by
  refine ⟨rfl, rfl, ⟨rfl, ?_⟩, ⟨rfl, ?_⟩, ⟨rfl, ?_⟩, ⟨rfl, ?_⟩,
    ⟨rfl, ?_⟩, ⟨rfl, ?_⟩⟩ <;>
    (intro i hmem
     rcases List.mem_map.1 hmem with ⟨p, _, rfl⟩
     exact ⟨rfl, rfl⟩)

/-- C8 witness: a one-modifier passive effect builds with status okFull and
its modifier activates at state offline in local context; an area effect
is rejected with no modifiers. -/
theorem c8_witness :
    buildEffect .area [0] = (.error, []) ∧
    (⟨0, .offline, .localCtx⟩ : BuiltInfo) ∈ (buildEffect .passive [0]).2 ∧
    ((⟨0, .offline, .localCtx⟩ : BuiltInfo).state = .offline ∧
      (⟨0, .offline, .localCtx⟩ : BuiltInfo).context = .localCtx) :=
  ⟨(c8_effect_category_states [0]).1, by decide,
    (c8_effect_category_states [0]).2.2.1.2 ⟨0, .offline, .localCtx⟩
      (by decide)⟩

end Eos
